import Mathlib

/-!
# ipcs: report model and formatting engine

A shallow embedding of `ipcs.c`.  Standard output is a list of characters;
every `printf` call of the source becomes one list appended to it, in the
order of the calls.  The platform constant `sizeof(key_t)` and the clock
reading formatted by `strftime` come from outside the program and are
parameters (`ks`, `date`).
-/

namespace Ipcs

/-! ## Constants: the three anonymous enums -/

def TYPE_WIDTH : Nat := 1
def ID_WIDTH : Nat := 10
/-- The width `sizeof(key_t) * 2`; `ks` is `sizeof(key_t)`. -/
def KEY_WIDTH (ks : Nat) : Nat := ks * 2
def MODE_WIDTH : Nat := 11
def OWNER_WIDTH : Nat := 8
def GROUP_WIDTH : Nat := 8
def CREATOR_WIDTH : Nat := OWNER_WIDTH
def CGROUP_WIDTH : Nat := GROUP_WIDTH
def CBYTES_WIDTH : Nat := 10
def QNUM_WIDTH : Nat := 5
def QBYTES_WIDTH : Nat := 10
def LSPID_WIDTH : Nat := 7
def LRPID_WIDTH : Nat := 7
def STIME_WIDTH : Nat := 9
def RTIME_WIDTH : Nat := 9
def NATTCH_WIDTH : Nat := 8
def SEGSZ_WIDTH : Nat := 6
def CPID_WIDTH : Nat := 7
def LPID_WIDTH : Nat := 7
def ATIME_WIDTH : Nat := 9
def DTIME_WIDTH : Nat := 9
def NSEMS_WIDTH : Nat := 6
def OTIME_WIDTH : Nat := 9
def CTIME_WIDTH : Nat := 9

def MSG : Char := 'q'
def SHM : Char := 'm'
def SEM : Char := 's'

def BYTES : Nat := 1
def CREATOR : Nat := 2
def OUTSTANDING : Nat := 4
def PROCESS : Nat := 8
def TIME : Nat := 16

/-- The three facility tags of the second enum, as a closed type. -/
inductive Facility where
  | msg
  | shm
  | sem
  deriving DecidableEq, Repr

/-- The character a facility tag stands for (`MSG`, `SHM`, `SEM`). -/
def Facility.tag : Facility → Char
  | .msg => MSG
  | .shm => SHM
  | .sem => SEM

/-! ## The record -/

/-- The `struct ipc` without its two link pointers: a list of records is a
Lean list, the empty list being the `NULL` pointer. -/
structure ipc where
  type : Char
  id : Int
  key : Nat
  mode : List Char
  owner : Nat
  group : Nat
  creator : Nat
  cgroup : Nat
  cbytes : Int
  qnum : Int
  natcch : Int
  qbytes : Int
  segsz : Int
  nsems : Int
  lspid : Int
  lrpid : Int
  cpid : Int
  lpid : Int
  stime : Int
  rtime : Int
  atime : Int
  dtime : Int
  otime : Int
  ctime : Int
  deriving DecidableEq, Repr

/-! ## The `printf` conversions the program uses -/

/-- Left justification (the `-` flag): pad with spaces on the right up to the
minimum field width; longer text is never cut. -/
def padRight (w : Nat) (s : List Char) : List Char :=
  s ++ List.replicate (w - s.length) ' '

/-- Zero padding (the `0` flag): zeros on the left up to the minimum width. -/
def padZero (w : Nat) (s : List Char) : List Char :=
  List.replicate (w - s.length) '0' ++ s

/-- Digits of `n` in base `b`, most significant first, by repeated division;
`fuel` bounds the number of divisions. -/
def digitsFuel (b : Nat) : Nat → Nat → List Char
  | 0, _ => []
  | fuel + 1, n =>
    if n < b then [Nat.digitChar n]
    else digitsFuel b fuel (n / b) ++ [Nat.digitChar (n % b)]

/-- The numeral of `n` in base `b` (lowercase letters above nine). -/
def numeral (b n : Nat) : List Char := digitsFuel b (n + 1) n

/-- The conversion `%d` of an `int`. -/
def fmt_d (v : Int) : List Char :=
  if v < 0 then '-' :: numeral 10 v.natAbs else numeral 10 v.natAbs

/-- The conversion `%x` of an `unsigned int`. -/
def fmt_x (v : Nat) : List Char := numeral 16 (v % 2 ^ 32)

/-- What `%d` reads when it is handed a 32-bit unsigned value (`uid_t`,
`gid_t`): the same 32 bits as a two's complement `int`. -/
def as_int (u : Nat) : Int :=
  if u % 2 ^ 32 < 2 ^ 31 then ((u % 2 ^ 32 : Nat) : Int)
  else ((u % 2 ^ 32 : Nat) : Int) - 2 ^ 32

/-- The bytes `%s` prints from a character array: up to the first NUL.  The
`mode` array has no room for a terminator; the byte after it is the padding
byte before `owner`, which `calloc` has zeroed. -/
def cstr (bytes : List Char) : List Char :=
  bytes.takeWhile (fun c => c != Char.ofNat 0)

/-- The call `printf("%-*c", w, c)`. -/
def printf_c (w : Nat) (c : Char) : List Char := padRight w [c]

/-- The call `printf(" %-*s", w, s)`. -/
def printf_s (w : Nat) (s : List Char) : List Char := ' ' :: padRight w s

/-- The call `printf(" %-*d", w, v)`. -/
def printf_d (w : Nat) (v : Int) : List Char := ' ' :: padRight w (fmt_d v)

/-- The call `printf(" 0x%0*x", w, v)`. -/
def printf_0x (w : Nat) (v : Nat) : List Char :=
  ' ' :: '0' :: 'x' :: padZero w (fmt_x v)

/-! ## The program -/

/-- The banner; `date` is what `strftime` wrote for the current time. -/
def print_header (date : List Char) : List Char :=
  "IPC status from ".toList ++ "<source>".toList ++ " as of ".toList ++ date ++ ['\n']

def print_user (width : Nat) (uid : Nat) : List Char := printf_d width (as_int uid)

def print_group (width : Nat) (gid : Nat) : List Char := printf_d width (as_int gid)

/-- One record line.  The parameters `type` and `opts` are not used by the
body, as in the source. -/
def print_record (ks : Nat) (_type : Char) (_opts : Nat) (entry : ipc) : List Char :=
  printf_c TYPE_WIDTH entry.type
  ++ printf_d ID_WIDTH entry.id
  ++ printf_0x (KEY_WIDTH ks - 2) entry.key
  ++ printf_s MODE_WIDTH (cstr entry.mode)
  ++ print_user OWNER_WIDTH entry.owner
  ++ print_group GROUP_WIDTH entry.group
  ++ ['\n']

/-- The facility name chosen at the top of `print_report`; `none` is the
`NULL` the variable keeps for any other tag. -/
def facility (type : Char) : Option (List Char) :=
  if type = MSG then some "Message Queues".toList
  else if type = SHM then some "Shared Memory".toList
  else if type = SEM then some "Semaphores".toList
  else none

/-- The header line of `print_report` (source lines 171 to 226). -/
def print_report_header (ks : Nat) (type : Char) (opts : Nat) : List Char :=
  printf_c TYPE_WIDTH 'T'
  ++ printf_s ID_WIDTH "ID".toList
  ++ printf_s (KEY_WIDTH ks) "KEY".toList
  ++ printf_s MODE_WIDTH "MODE".toList
  ++ printf_s OWNER_WIDTH "OWNER".toList
  ++ printf_s GROUP_WIDTH "GROUP".toList
  ++ (if opts &&& CREATOR ≠ 0 then
        printf_s CREATOR_WIDTH "CREATOR".toList ++ printf_s CGROUP_WIDTH "CGROUP".toList
      else [])
  ++ (if opts &&& OUTSTANDING ≠ 0 then
        (if type = MSG then
          printf_s CBYTES_WIDTH "CBYTES".toList ++ printf_s QNUM_WIDTH "QNUM".toList
        else if type = SHM then
          printf_s NATTCH_WIDTH "NATTCH".toList
        else [])
      else [])
  ++ (if opts &&& BYTES ≠ 0 then
        (if type = MSG then printf_s QBYTES_WIDTH "QBYTES".toList
        else if type = SHM then printf_s SEGSZ_WIDTH "SEGSZ".toList
        else if type = SEM then printf_s NSEMS_WIDTH "NSEMS".toList
        else [])
      else [])
  ++ (if opts &&& PROCESS ≠ 0 then
        (if type = MSG then
          printf_s LSPID_WIDTH "LSPID".toList ++ printf_s LRPID_WIDTH "LRPID".toList
        else if type = SHM then
          printf_s CPID_WIDTH "CPID".toList ++ printf_s LPID_WIDTH "LPID".toList
        else [])
      else [])
  ++ (if opts &&& TIME ≠ 0 then
        (if type = MSG then
          printf_s STIME_WIDTH "STIME".toList ++ printf_s RTIME_WIDTH "RTIME".toList
        else if type = SHM then
          printf_s ATIME_WIDTH "ATIME".toList ++ printf_s DTIME_WIDTH "DTIME".toList
        else if type = SEM then
          printf_s OTIME_WIDTH "OTIME".toList
        else [])
        ++ printf_s CTIME_WIDTH "CTIME".toList
      else [])
  ++ ['\n']

/-- The loop at the end of `print_report`: one `print_record` per list node. -/
def print_records (ks : Nat) (type : Char) (opts : Nat) : List ipc → List Char
  | [] => []
  | entry :: next => print_record ks type opts entry ++ print_records ks type opts next

/-- The function `print_report`.  The result is `none` when `facility` is
still `NULL` at the first `printf("%s", facility)`, which C leaves undefined. -/
def print_report (ks : Nat) (type : Char) (opts : Nat) (list : List ipc) :
    Option (List Char) :=
  match facility type with
  | none => none
  | some name =>
    if list = [] then
      some (name ++ " facility not in system.\n".toList)
    else
      some (name ++ ":\n".toList
        ++ print_report_header ks type opts
        ++ print_records ks type opts list)

/-- The collector `ipcs`: one record from `calloc` (every field zero, `next`
the `NULL` pointer, so the list has one node), the tag set, the mode array
filled with `-`. -/
def ipcs (type : Char) : List ipc :=
  [{ type := type, id := 0, key := 0, mode := List.replicate 11 '-',
     owner := 0, group := 0, creator := 0, cgroup := 0,
     cbytes := 0, qnum := 0, natcch := 0, qbytes := 0, segsz := 0, nsems := 0,
     lspid := 0, lrpid := 0, cpid := 0, lpid := 0,
     stime := 0, rtime := 0, atime := 0, dtime := 0, otime := 0, ctime := 0 }]

/-- The option string `main` hands to `getopt`. -/
def optstring : List Char := "qmsabcopt".toList

/-- The library routine `getopt`, one option character at a time: a character
listed in the option string is returned as it is, any other yields `?` (the
diagnostic it writes goes to standard error, not to standard output). -/
def getopt (opts : List Char) (c : Char) : Char :=
  if c ∈ opts ∧ c ≠ ':' then c else '?'

/-- The local variables of `main` that the option loop updates. -/
structure main_locals where
  msgs : Nat
  shms : Nat
  sems : Nat
  print : Nat
  deriving DecidableEq, Repr

/-- The `switch` in the option loop; `none` is the `return 1` of the
`default` label. -/
def main_switch (c : Char) (v : main_locals) : Option main_locals :=
  if c = 'q' then some { v with msgs := 1 }
  else if c = 'm' then some { v with shms := 1 }
  else if c = 's' then some { v with sems := 1 }
  else if c = 'a' then some { v with print := BYTES ||| CREATOR ||| OUTSTANDING ||| PROCESS ||| TIME }
  else if c = 'b' then some { v with print := v.print ||| BYTES }
  else if c = 'c' then some { v with print := v.print ||| CREATOR }
  else if c = 'o' then some { v with print := v.print ||| OUTSTANDING }
  else if c = 'p' then some { v with print := v.print ||| PROCESS }
  else if c = 't' then some { v with print := v.print ||| TIME }
  else none

/-- The `while ((c = getopt(...)) != -1)` loop over the option characters of
the command line, in order. -/
def main_loop : List Char → main_locals → Option main_locals
  | [], v => some v
  | f :: rest, v =>
    match main_switch (getopt optstring f) v with
    | none => none
    | some w => main_loop rest w

/-- The default selection: all three facilities when no facility flag was
given. -/
def main_default (v : main_locals) : main_locals :=
  if v.msgs = 0 ∧ v.shms = 0 ∧ v.sems = 0 then
    { v with msgs := 1, shms := 1, sems := 1 }
  else v

/-- One `if (x) { print_report(T, print, list); }` of `main`. -/
def main_section (ks : Nat) (sel : Nat) (type : Char) (print : Nat) (list : List ipc) :
    Option (List Char) :=
  if sel ≠ 0 then print_report ks type print list else some []

/-- The function `main` on the option characters `flags`: exit status and
standard output.  `none` would be undefined behaviour inside `print_report`. -/
def main (ks : Nat) (date : List Char) (flags : List Char) : Option (Nat × List Char) :=
  match main_loop flags { msgs := 0, shms := 0, sems := 0, print := 0 } with
  | none => some (1, [])
  | some v0 =>
    let v := main_default v0
    let msglist := if v.msgs ≠ 0 then ipcs MSG else []
    let shmlist := if v.shms ≠ 0 then ipcs SHM else []
    let semlist := if v.sems ≠ 0 then ipcs SEM else []
    match main_section ks v.msgs MSG v.print msglist,
          main_section ks v.shms SHM v.print shmlist,
          main_section ks v.sems SEM v.print semlist with
    | some o1, some o2, some o3 => some (0, print_header date ++ o1 ++ o2 ++ o3)
    | _, _, _ => none

/-! ## Reading the output back: lines and columns -/

/-- Split at newlines; `cur` is the line read so far. -/
def linesAux (cur : List Char) : List Char → List (List Char)
  | [] => if cur = [] then [] else [cur]
  | c :: cs => if c = '\n' then cur :: linesAux [] cs else linesAux (cur ++ [c]) cs

/-- The lines of an output, without their newlines. -/
def lines (out : List Char) : List (List Char) := linesAux [] out

/-- Split a line at runs of spaces; `cur` is the word read so far. -/
def columnsAux (cur : List Char) : List Char → List (List Char)
  | [] => if cur = [] then [] else [cur]
  | c :: cs =>
    if c = ' ' then
      (if cur = [] then columnsAux [] cs else cur :: columnsAux [] cs)
    else columnsAux (cur ++ [c]) cs

/-- The blank-separated words of a line. -/
def columns (line : List Char) : List (List Char) := columnsAux [] line

/-- The header line of a non-empty report: its second line, after the title. -/
def header_line (out : List Char) : List Char := (lines out).getD 1 []

/-- The line of the `k`-th record of a non-empty report (counting from 0). -/
def record_line (out : List Char) (k : Nat) : List Char := (lines out).getD (k + 2) []

/-! ## The column selector and width table, as the specification words them -/

/-- The twenty-four columns of the width table. -/
inductive Column where
  | type | id | key | mode | owner | group
  | creator | cgroup
  | cbytes | qnum | qbytes | lspid | lrpid | stime | rtime
  | nattch | segsz | cpid | lpid | atime | dtime
  | nsems | otime
  | ctime
  deriving DecidableEq, Repr

/-- The column names. -/
def Column.name : Column → List Char
  | .type => "T".toList | .id => "ID".toList | .key => "KEY".toList
  | .mode => "MODE".toList | .owner => "OWNER".toList | .group => "GROUP".toList
  | .creator => "CREATOR".toList | .cgroup => "CGROUP".toList
  | .cbytes => "CBYTES".toList | .qnum => "QNUM".toList | .qbytes => "QBYTES".toList
  | .lspid => "LSPID".toList | .lrpid => "LRPID".toList
  | .stime => "STIME".toList | .rtime => "RTIME".toList
  | .nattch => "NATTCH".toList | .segsz => "SEGSZ".toList
  | .cpid => "CPID".toList | .lpid => "LPID".toList
  | .atime => "ATIME".toList | .dtime => "DTIME".toList
  | .nsems => "NSEMS".toList | .otime => "OTIME".toList
  | .ctime => "CTIME".toList

/-- The width table of the specification; `ks` is the key size in bytes. -/
def Column.width (ks : Nat) : Column → Nat
  | .type => 1 | .id => 10 | .key => 2 * ks | .mode => 11 | .owner => 8 | .group => 8
  | .creator => 8 | .cgroup => 8
  | .cbytes => 10 | .qnum => 5 | .qbytes => 10 | .lspid => 7 | .lrpid => 7
  | .stime => 9 | .rtime => 9
  | .nattch => 8 | .segsz => 6 | .cpid => 7 | .lpid => 7 | .atime => 9 | .dtime => 9
  | .nsems => 6 | .otime => 9
  | .ctime => 9

/-- Membership of an option bit in an option bitset. -/
def hasOpt (o bit : Nat) : Bool := o &&& bit != 0

/-- The column selector, rule by rule (rules 1 to 6 of the specification). -/
def spec_columns (F : Facility) (o : Nat) : List Column :=
  [.type, .id, .key, .mode, .owner, .group]
  ++ (if hasOpt o CREATOR then [.creator, .cgroup] else [])
  ++ (if hasOpt o OUTSTANDING then
        (match F with
         | .msg => [.cbytes, .qnum]
         | .shm => [.nattch]
         | .sem => [])
      else [])
  ++ (if hasOpt o BYTES then
        (match F with
         | .msg => [.qbytes]
         | .shm => [.segsz]
         | .sem => [.nsems])
      else [])
  ++ (if hasOpt o PROCESS then
        (match F with
         | .msg => [.lspid, .lrpid]
         | .shm => [.cpid, .lpid]
         | .sem => [])
      else [])
  ++ (if hasOpt o TIME then
        (match F with
         | .msg => [.stime, .rtime]
         | .shm => [.atime, .dtime]
         | .sem => [.otime])
        ++ [.ctime]
      else [])

/-- A column name left-justified in its width. -/
def Column.cell (ks : Nat) (c : Column) : List Char := padRight (c.width ks) c.name

/-- The facility display names of the specification. -/
def Facility.display : Facility → List Char
  | .msg => "Message Queues".toList
  | .shm => "Shared Memory".toList
  | .sem => "Semaphores".toList

/-- The flags the specification recognises. -/
def recognised : List Char := ['q', 'm', 's', 'a', 'b', 'c', 'o', 'p', 't']

/-- The header line as the specification describes it: the selected column
names, each left-justified in its width, joined by single spaces, then a
newline. -/
def spec_header_line (ks : Nat) (F : Facility) (o : Nat) : List Char :=
  [' '].intercalate ((spec_columns F o).map (fun c => padRight (c.width ks) c.name)) ++ ['\n']

/-- The value of one hexadecimal digit character (0 for any other). -/
def hexVal (c : Char) : Nat :=
  if '0' ≤ c ∧ c ≤ '9' then c.toNat - '0'.toNat
  else if 'a' ≤ c ∧ c ≤ 'f' then c.toNat - 'a'.toNat + 10
  else 0

/-- Read a run of hexadecimal digits back as a number. -/
def readHex (ds : List Char) : Nat := ds.foldl (fun acc c => acc * 16 + hexVal c) 0

/-- The six fields of a record line as `print_record` formats them, without
the separating spaces. -/
def record_fields (ks : Nat) (e : ipc) : List (List Char) :=
  [ padRight TYPE_WIDTH [e.type],
    padRight ID_WIDTH (fmt_d e.id),
    '0' :: 'x' :: padZero (KEY_WIDTH ks - 2) (fmt_x e.key),
    padRight MODE_WIDTH (cstr e.mode),
    padRight OWNER_WIDTH (fmt_d (as_int e.owner)),
    padRight GROUP_WIDTH (fmt_d (as_int e.group)) ]

/-- The Key field of a record line. -/
def key_field (ks : Nat) (e : ipc) : List Char := (record_fields ks e).getD 2 []

/-- The six base columns, present in every header. -/
def base_columns : List Column := [.type, .id, .key, .mode, .owner, .group]

/-- The collector's record with its key replaced by `key`. -/
def record_with_key (key : Nat) : ipc :=
  { type := MSG, id := 0, key := key, mode := List.replicate 11 '-',
    owner := 0, group := 0, creator := 0, cgroup := 0,
    cbytes := 0, qnum := 0, natcch := 0, qbytes := 0, segsz := 0, nsems := 0,
    lspid := 0, lrpid := 0, cpid := 0, lpid := 0,
    stime := 0, rtime := 0, atime := 0, dtime := 0, otime := 0, ctime := 0 }

/-- The effect of one flag on the option bitset, as the specification words
it: `a` sets all five bits, each of `b c o p t` adds its own, a facility flag
leaves the bitset alone. -/
def option_step (p : Nat) (f : Char) : Nat :=
  if f = 'a' then BYTES ||| CREATOR ||| OUTSTANDING ||| PROCESS ||| TIME
  else if f = 'b' then p ||| BYTES
  else if f = 'c' then p ||| CREATOR
  else if f = 'o' then p ||| OUTSTANDING
  else if f = 'p' then p ||| PROCESS
  else if f = 't' then p ||| TIME
  else p

/-- The option bitset after a list of flags, starting from `p`. -/
def option_bits (p : Nat) : List Char → Nat
  | [] => p
  | f :: rest => option_bits (option_step p f) rest

/-- Whether the facility with flag `f` is reported: its flag was given, or
no facility flag at all was given. -/
def selected (flags : List Char) (f : Char) : Bool :=
  decide (f ∈ flags) || (!decide ('q' ∈ flags) && !decide ('m' ∈ flags) && !decide ('s' ∈ flags))

/-- The section of one facility in the output of `main`: title, header and
the lines of the collector's records. -/
def report_text (ks : Nat) (F : Facility) (p : Nat) : List Char :=
  F.display ++ ":\n".toList ++ print_report_header ks F.tag p
    ++ print_records ks F.tag p (ipcs F.tag)

/-- A flag list with every `a` replaced by `b c o p t`. -/
def replace_a : List Char → List Char
  | [] => []
  | f :: rest => (if f = 'a' then ['b', 'c', 'o', 'p', 't'] else [f]) ++ replace_a rest

/-- Every column a facility can show, in the fixed tier order: the base
columns, then Creator, Outstanding, Bytes (size), Process, Time. -/
def full_header : Facility → List (List Char)
  | .msg => ["T".toList, "ID".toList, "KEY".toList, "MODE".toList, "OWNER".toList,
             "GROUP".toList, "CREATOR".toList, "CGROUP".toList, "CBYTES".toList,
             "QNUM".toList, "QBYTES".toList, "LSPID".toList, "LRPID".toList,
             "STIME".toList, "RTIME".toList, "CTIME".toList]
  | .shm => ["T".toList, "ID".toList, "KEY".toList, "MODE".toList, "OWNER".toList,
             "GROUP".toList, "CREATOR".toList, "CGROUP".toList, "NATTCH".toList,
             "SEGSZ".toList, "CPID".toList, "LPID".toList,
             "ATIME".toList, "DTIME".toList, "CTIME".toList]
  | .sem => ["T".toList, "ID".toList, "KEY".toList, "MODE".toList, "OWNER".toList,
             "GROUP".toList, "CREATOR".toList, "CGROUP".toList, "NSEMS".toList,
             "OTIME".toList, "CTIME".toList]

/-- Whether the bitset selects a tier that has a column for the facility:
Creator, Bytes and Time have one for every facility, Outstanding and Process
only for message queues and shared memory. -/
def adds_column (F : Facility) (o : Nat) : Bool :=
  hasOpt o CREATOR || hasOpt o BYTES || hasOpt o TIME
    || ((hasOpt o OUTSTANDING || hasOpt o PROCESS) && decide (F ≠ Facility.sem))

/-- The option bitset a flag list yields, from which of the flags
`a b c o p t` occur in it. -/
def bits_of (a b c o p t : Bool) : Nat :=
  if a then BYTES ||| CREATOR ||| OUTSTANDING ||| PROCESS ||| TIME
  else (if b then BYTES else 0) ||| (if c then CREATOR else 0)
    ||| (if o then OUTSTANDING else 0) ||| (if p then PROCESS else 0)
    ||| (if t then TIME else 0)

/-- The three lines of a facility's section in the output of `main`, each
without its newline: the title, the header, the line of the collector's one
record. -/
def section_lines_of (ks : Nat) (F : Facility) (p : Nat) : List (List Char) :=
  [ F.display ++ [':'],
    (print_report_header ks F.tag p).dropLast,
    (print_records ks F.tag p (ipcs F.tag)).dropLast ]

/-- The sentence `print_report` prints for an empty list, without its
newline. -/
def not_in_system (F : Facility) : List Char :=
  F.display ++ " facility not in system.".toList

/-- The collector's record with its owner replaced by `uid`. -/
def record_with_owner (uid : Nat) : ipc :=
  { type := MSG, id := 0, key := 0, mode := List.replicate 11 '-',
    owner := uid, group := 0, creator := 0, cgroup := 0,
    cbytes := 0, qnum := 0, natcch := 0, qbytes := 0, segsz := 0, nsems := 0,
    lspid := 0, lrpid := 0, cpid := 0, lpid := 0,
    stime := 0, rtime := 0, atime := 0, dtime := 0, otime := 0, ctime := 0 }

/-- The collector's record with its mode array replaced by `mode`. -/
def record_with_mode (mode : List Char) : ipc :=
  { type := MSG, id := 0, key := 0, mode := mode,
    owner := 0, group := 0, creator := 0, cgroup := 0,
    cbytes := 0, qnum := 0, natcch := 0, qbytes := 0, segsz := 0, nsems := 0,
    lspid := 0, lrpid := 0, cpid := 0, lpid := 0,
    stime := 0, rtime := 0, atime := 0, dtime := 0, otime := 0, ctime := 0 }

/-! ## Helper lemmas: lines and columns -/

theorem linesAux_append_newline (a : List Char) :
    ∀ (cur b : List Char), '\n' ∉ a →
      linesAux cur (a ++ '\n' :: b) = (cur ++ a) :: linesAux [] b := by
  induction a with
  | nil => intro cur b _; simp [linesAux]
  | cons c a ih =>
    intro cur b h
    have hc : c ≠ '\n' := fun e => h (by simp [e])
    have ha : '\n' ∉ a := fun e => h (by simp [e])
    simp [linesAux, hc, ih (cur ++ [c]) b ha]

theorem columnsAux_word (w : List Char) :
    ∀ (cur rest : List Char), ' ' ∉ w →
      columnsAux cur (w ++ rest) = columnsAux (cur ++ w) rest := by
  induction w with
  | nil => intro cur rest _; simp
  | cons c w ih =>
    intro cur rest h
    have hc : c ≠ ' ' := fun e => h (by simp [e])
    have hw : ' ' ∉ w := fun e => h (by simp [e])
    simp [columnsAux, hc, ih (cur ++ [c]) rest hw]

theorem columnsAux_blanks (n : Nat) (rest : List Char) :
    columnsAux [] (List.replicate n ' ' ++ rest) = columnsAux [] rest := by
  induction n with
  | zero => simp
  | succ n ih => simp [List.replicate_succ, columnsAux, ih]

theorem columnsAux_blanks_end (n : Nat) (cur : List Char) (h : cur ≠ []) :
    columnsAux cur (List.replicate n ' ') = [cur] := by
  cases n with
  | zero => simp [columnsAux, h]
  | succ n =>
    have := columnsAux_blanks n []
    simp only [List.append_nil] at this
    simp [List.replicate_succ, columnsAux, h, this]

theorem columnsAux_blanks_sep (n : Nat) (cur rest : List Char) (h : cur ≠ []) :
    columnsAux cur (List.replicate n ' ' ++ ' ' :: rest) = cur :: columnsAux [] rest := by
  cases n with
  | zero => simp [columnsAux, h]
  | succ n =>
    have := columnsAux_blanks n (' ' :: rest)
    simp [List.replicate_succ, columnsAux, h, this]

theorem intercalate_cons_cons (a b : List Char) (r : List (List Char)) :
    [' '].intercalate (a :: b :: r) = a ++ ' ' :: [' '].intercalate (b :: r) := by
  simp [List.intercalate, List.intersperse]

theorem intercalate_single (a : List Char) : [' '].intercalate [a] = a := by
  simp [List.intercalate, List.intersperse]

theorem name_ne_nil (c : Column) : c.name ≠ [] := by cases c <;> decide

theorem name_no_blank (c : Column) : ' ' ∉ c.name := by cases c <;> decide

theorem cell_no_newline (ks : Nat) (c : Column) : '\n' ∉ c.cell ks := by
  cases c <;> simp [Column.cell, padRight, Column.name, List.mem_replicate]

theorem columns_cells (ks : Nat) (cols : List Column) :
    columns ([' '].intercalate (cols.map (Column.cell ks))) = cols.map Column.name := by
  unfold columns
  induction cols with
  | nil => simp [List.intercalate, columnsAux]
  | cons c rest ih =>
    cases rest with
    | nil =>
      simp only [List.map_cons, List.map_nil, intercalate_single, Column.cell, padRight]
      rw [columnsAux_word _ _ _ (name_no_blank c), List.nil_append,
        columnsAux_blanks_end _ _ (name_ne_nil c)]
    | cons d rest =>
      simp only [List.map_cons] at ih ⊢
      rw [intercalate_cons_cons]
      show columnsAux [] (padRight (c.width ks) c.name ++ _) = _
      simp only [padRight, List.append_assoc]
      rw [columnsAux_word _ _ _ (name_no_blank c), List.nil_append,
        columnsAux_blanks_sep _ _ _ (name_ne_nil c), ih]

set_option maxHeartbeats 2000000 in
theorem header_eq_cells (ks : Nat) (F : Facility) (o : Nat) :
    print_report_header ks F.tag o
      = [' '].intercalate ((spec_columns F o).map (Column.cell ks)) ++ ['\n'] := by
  have hk : KEY_WIDTH ks = 2 * ks := Nat.mul_comm ks 2
  unfold print_report_header spec_columns hasOpt
  rw [hk]
  by_cases h1 : o &&& CREATOR = 0 <;> by_cases h2 : o &&& OUTSTANDING = 0 <;>
    by_cases h3 : o &&& BYTES = 0 <;> by_cases h4 : o &&& PROCESS = 0 <;>
    by_cases h5 : o &&& TIME = 0 <;> cases F <;>
    simp only [h1, h2, h3, h4, h5, ne_eq, not_true_eq_false, not_false_eq_true, if_true, if_false,
      bne_self_eq_false, Bool.false_eq_true, bne_iff_ne, Facility.tag, List.append_nil,
      List.map_cons, List.map_nil, List.cons_append, List.nil_append, List.intercalate,
      List.intersperse, List.flatten, List.append_assoc, Column.cell, printf_s, printf_c, padRight,
      Column.width] <;> rfl

theorem facility_tag (F : Facility) : facility F.tag = some F.display := by
  cases F <;> rfl

theorem display_no_newline (F : Facility) : '\n' ∉ F.display ++ [':'] := by
  cases F <;> decide

theorem cells_no_newline (ks : Nat) (cols : List Column) :
    '\n' ∉ [' '].intercalate (cols.map (Column.cell ks)) := by
  induction cols with
  | nil => simp [List.intercalate]
  | cons c rest ih =>
    cases rest with
    | nil => simpa [intercalate_single] using cell_no_newline ks c
    | cons d rest =>
      simp only [List.map_cons] at ih ⊢
      rw [intercalate_cons_cons]
      simp only [List.mem_append, List.mem_cons, not_or]
      exact ⟨cell_no_newline ks c, by decide, ih⟩

/-- The output of `print_report` on a non-empty list, and its first two lines. -/
theorem report_lines (ks : Nat) (F : Facility) (o : Nat) (l : List ipc) (hl : l ≠ []) :
    print_report ks F.tag o l
        = some (F.display ++ ":\n".toList ++ print_report_header ks F.tag o
            ++ print_records ks F.tag o l)
      ∧ lines (F.display ++ ":\n".toList ++ print_report_header ks F.tag o
            ++ print_records ks F.tag o l)
        = (F.display ++ [':'])
          :: [' '].intercalate ((spec_columns F o).map (Column.cell ks))
          :: lines (print_records ks F.tag o l) := by
  constructor
  · simp [print_report, facility_tag, hl]
  · rw [header_eq_cells]
    have e : F.display ++ ":\n".toList
          ++ ([' '].intercalate ((spec_columns F o).map (Column.cell ks)) ++ ['\n'])
          ++ print_records ks F.tag o l
        = (F.display ++ [':']) ++ '\n' ::
            ([' '].intercalate ((spec_columns F o).map (Column.cell ks)) ++ '\n' ::
              print_records ks F.tag o l) := by
      simp
    rw [e]
    unfold lines
    rw [linesAux_append_newline _ _ _ (display_no_newline F), List.nil_append,
      linesAux_append_newline _ _ _ (cells_no_newline ks _), List.nil_append]

theorem name_fits (ks : Nat) (hks : 2 ≤ ks) (c : Column) : c.name.length ≤ c.width ks := by
  cases c <;> simp [Column.name, Column.width]
  omega

theorem cell_length (ks : Nat) (hks : 2 ≤ ks) (c : Column) :
    (c.cell ks).length = c.width ks := by
  have := name_fits ks hks c
  simp [Column.cell, padRight]
  omega

theorem cells_length (ks : Nat) (hks : 2 ≤ ks) (cols : List Column) :
    ([' '].intercalate (cols.map (Column.cell ks))).length + 1
      = (cols.map (Column.width ks)).sum + max cols.length 1 := by
  induction cols with
  | nil => simp [List.intercalate]
  | cons c rest ih =>
    cases rest with
    | nil => simp [intercalate_single, cell_length ks hks c]
    | cons d rest =>
      simp only [List.map_cons] at ih ⊢
      rw [intercalate_cons_cons]
      simp only [List.length_append, List.length_cons, List.sum_cons, cell_length ks hks c] at ih ⊢
      omega

theorem spec_columns_length (F : Facility) (o : Nat) : 6 ≤ (spec_columns F o).length := by
  simp [spec_columns]

/-- C1: for every facility, every option bitset and every non-empty record
list, the header line of `print_report` has exactly the columns the column
selector of the specification lists, in that order; with all five options set
that is 16 columns for message queues, 15 for shared memory and 11 for
semaphores. -/
theorem header_columns_match_selector (ks : Nat) (F : Facility) (o : Nat) (l : List ipc)
    (hl : l ≠ []) :
    (∃ out, print_report ks F.tag o l = some out ∧
        columns (header_line out) = (spec_columns F o).map Column.name) ∧
    (∃ out, print_report ks F.tag (BYTES ||| CREATOR ||| OUTSTANDING ||| PROCESS ||| TIME) l
          = some out ∧
        (columns (header_line out)).length
          = match F with
            | .msg => 16
            | .shm => 15
            | .sem => 11) := by
  have key : ∀ p : Nat, ∃ out, print_report ks F.tag p l = some out ∧
      columns (header_line out) = (spec_columns F p).map Column.name := by
    intro p
    obtain ⟨h1, h2⟩ := report_lines ks F p l hl
    refine ⟨_, h1, ?_⟩
    unfold header_line
    rw [h2]
    exact columns_cells ks _
  refine ⟨key o, ?_⟩
  obtain ⟨out, h1, h2⟩ := key (BYTES ||| CREATOR ||| OUTSTANDING ||| PROCESS ||| TIME)
  refine ⟨out, h1, ?_⟩
  rw [h2]
  cases F <;> rfl

/-- C1, instance: message queues, all options, the collector's list. -/
theorem header_columns_match_selector_witness :
    ipcs MSG ≠ [] ∧
    ∃ out, print_report 4 MSG 31 (ipcs MSG) = some out ∧
      columns (header_line out)
        = ["T".toList, "ID".toList, "KEY".toList, "MODE".toList, "OWNER".toList,
           "GROUP".toList, "CREATOR".toList, "CGROUP".toList, "CBYTES".toList,
           "QNUM".toList, "QBYTES".toList, "LSPID".toList, "LRPID".toList,
           "STIME".toList, "RTIME".toList, "CTIME".toList] :=
  ⟨by decide, (header_columns_match_selector 4 Facility.msg 31 (ipcs MSG) (by decide)).1⟩

/-- C2, the code at a failing input: for message queues with the Creator
option the header line has eight columns, CREATOR and CGROUP last, while the
line of the record has only the six base fields. -/
theorem record_line_lacks_option_fields :
    ∃ out, print_report 4 MSG CREATOR (ipcs MSG) = some out ∧
      columns (header_line out)
        = ["T".toList, "ID".toList, "KEY".toList, "MODE".toList, "OWNER".toList,
           "GROUP".toList, "CREATOR".toList, "CGROUP".toList] ∧
      columns (record_line out 0)
        = ["q".toList, "0".toList, "0x000000".toList, "-----------".toList, "0".toList,
           "0".toList] :=
  ⟨_, rfl, by decide, by decide⟩

/-- C3: with a key type of at least two bytes, the header line `print_report`
emits is the selected column names, each left-justified to its width of the
width table, joined by single spaces and ended by a newline; every column name
fits its width, so the line is as long as the selected widths, the separating
spaces and the newline together. -/
theorem header_line_layout (ks : Nat) (hks : 2 ≤ ks) (F : Facility) (o : Nat) (l : List ipc)
    (hl : l ≠ []) :
    print_report ks F.tag o l
        = some (F.display ++ ":\n".toList ++ spec_header_line ks F o
            ++ print_records ks F.tag o l) ∧
    header_line (F.display ++ ":\n".toList ++ spec_header_line ks F o
            ++ print_records ks F.tag o l) ++ ['\n'] = spec_header_line ks F o ∧
    (∀ c : Column, c.name.length ≤ c.width ks) ∧
    (spec_header_line ks F o).length
      = ((spec_columns F o).map (Column.width ks)).sum + ((spec_columns F o).length - 1) + 1 := by
  have hs : spec_header_line ks F o = print_report_header ks F.tag o := by
    rw [header_eq_cells]; rfl
  obtain ⟨h1, h2⟩ := report_lines ks F o l hl
  refine ⟨by rw [hs]; exact h1, ?_, name_fits ks hks, ?_⟩
  · rw [hs]
    unfold header_line
    rw [h2, header_eq_cells]
    rfl
  · have h6 := spec_columns_length F o
    have hlen := cells_length ks hks (spec_columns F o)
    have : (spec_header_line ks F o).length
        = ([' '].intercalate ((spec_columns F o).map (Column.cell ks))).length + 1 := by
      unfold spec_header_line
      rw [List.length_append]
      rfl
    rw [this, hlen]
    omega

/-- C3, instance: shared memory with the Time option on a four-byte key. -/
theorem header_line_layout_witness :
    2 ≤ 4 ∧ ipcs SHM ≠ [] ∧
    print_report 4 SHM TIME (ipcs SHM)
      = some ("Shared Memory".toList ++ ":\n".toList ++ spec_header_line 4 Facility.shm TIME
          ++ print_records 4 SHM TIME (ipcs SHM)) :=
  ⟨by decide, by decide,
    (header_line_layout 4 (by decide) Facility.shm TIME (ipcs SHM) (by decide)).1⟩

/-- C6: on an empty record list `print_report` emits exactly one line, the
facility display name followed by ` facility not in system.` and a newline,
and nothing else: no title, no header, no record line. -/
theorem empty_report (ks : Nat) (F : Facility) (o : Nat) :
    print_report ks F.tag o []
        = some (F.display ++ " facility not in system.".toList ++ ['\n']) ∧
    lines (F.display ++ " facility not in system.".toList ++ ['\n'])
        = [F.display ++ " facility not in system.".toList] := by
  constructor
  · cases F <;> rfl
  · cases F <;> decide

/-! ## Helper lemmas: numerals -/

theorem digitsFuel_length_le (b : Nat) (hb : 2 ≤ b) :
    ∀ (fuel n k : Nat), 0 < k → n < b ^ k → (digitsFuel b fuel n).length ≤ k := by
  intro fuel
  induction fuel with
  | zero => intro n k _ _; simp [digitsFuel]
  | succ fuel ih =>
    intro n k hk hn
    unfold digitsFuel
    split
    · simpa using hk
    · rename_i hge
      have hk2 : 2 ≤ k := by
        rcases Nat.lt_or_ge k 2 with h | h
        · have : k = 1 := by omega
          subst this
          simp at hn
          omega
        · exact h
      have hdiv : n / b < b ^ (k - 1) := by
        rw [Nat.div_lt_iff_lt_mul (by omega)]
        have : b ^ k = b ^ (k - 1) * b := by
          rw [← Nat.pow_succ]; congr 1; omega
        omega
      have := ih (n / b) (k - 1) (by omega) hdiv
      simp only [List.length_append, List.length_singleton]
      omega

theorem numeral_length_le (b : Nat) (hb : 2 ≤ b) (n k : Nat) (hk : 0 < k) (hn : n < b ^ k) :
    (numeral b n).length ≤ k :=
  digitsFuel_length_le b hb (n + 1) n k hk hn

/-- The value of a hexadecimal digit character. -/
theorem hexVal_digitChar (d : Nat) (hd : d < 16) : hexVal (Nat.digitChar d) = d := by
  interval_cases d <;> rfl

theorem digitChar_mem_hex (d : Nat) (hd : d < 16) :
    Nat.digitChar d ∈ "0123456789abcdef".toList := by
  interval_cases d <;> decide

theorem readHex_append (a : List Char) (c : Char) :
    readHex (a ++ [c]) = readHex a * 16 + hexVal c := by
  simp [readHex, List.foldl_append]

theorem readHex_digitsFuel :
    ∀ (fuel n : Nat), n < fuel → readHex (digitsFuel 16 fuel n) = n := by
  intro fuel
  induction fuel with
  | zero => intro n h; omega
  | succ fuel ih =>
    intro n hn
    unfold digitsFuel
    split
    · rename_i hlt
      simp [readHex, hexVal_digitChar n hlt]
    · rename_i hge
      rw [readHex_append, ih (n / 16) (by omega), hexVal_digitChar _ (Nat.mod_lt _ (by omega))]
      omega

theorem digitsFuel_mem_hex :
    ∀ (fuel n : Nat), ∀ c ∈ digitsFuel 16 fuel n, c ∈ "0123456789abcdef".toList := by
  intro fuel
  induction fuel with
  | zero => intro n c h; simp [digitsFuel] at h
  | succ fuel ih =>
    intro n c h
    unfold digitsFuel at h
    split at h
    · rename_i hlt
      simp only [List.mem_singleton] at h
      rw [h]; exact digitChar_mem_hex n hlt
    · simp only [List.mem_append, List.mem_singleton] at h
      rcases h with h | h
      · exact ih _ c h
      · rw [h]; exact digitChar_mem_hex _ (Nat.mod_lt _ (by omega))

theorem readHex_zeros (k : Nat) (s : List Char) :
    readHex (List.replicate k '0' ++ s) = readHex s := by
  induction k with
  | zero => simp
  | succ k ih =>
    have h0 : hexVal '0' = 0 := by rfl
    simp only [readHex] at ih ⊢
    simp [List.replicate_succ, h0, ih]

/-! ## Helper lemmas: the record line -/

theorem print_record_eq_fields (ks : Nat) (t : Char) (o : Nat) (e : ipc) :
    print_record ks t o e = [' '].intercalate (record_fields ks e) ++ ['\n'] := by
  simp [print_record, record_fields, List.intercalate, List.intersperse, printf_c, printf_d,
    printf_0x, printf_s, print_user, print_group]

theorem padRight_length (w : Nat) (s : List Char) (h : s.length ≤ w) :
    (padRight w s).length = w := by
  simp [padRight]; omega

theorem padRight_length_ge (w : Nat) (s : List Char) : w ≤ (padRight w s).length := by
  simp [padRight]; omega

theorem padZero_length (w : Nat) (s : List Char) (h : s.length ≤ w) :
    (padZero w s).length = w := by
  simp [padZero]; omega

theorem fmt_d_length_le (v : Int) (k : Nat) (hk : 0 < k)
    (hlo : -(10 : Int) ^ k < v) (hhi : v < (10 : Int) ^ (k + 1)) :
    (fmt_d v).length ≤ k + 1 := by
  unfold fmt_d
  split
  · rename_i hneg
    have : v.natAbs < 10 ^ k := by
      have h1 : (v.natAbs : Int) = -v := by omega
      have h2 : ((v.natAbs : Nat) : Int) < ((10 ^ k : Nat) : Int) := by
        rw [h1]; push_cast; omega
      exact_mod_cast h2
    have := numeral_length_le 10 (by decide) v.natAbs k hk this
    simp only [List.length_cons]
    omega
  · rename_i hpos
    have : v.natAbs < 10 ^ (k + 1) := by
      have h1 : (v.natAbs : Int) = v := by omega
      have h2 : ((v.natAbs : Nat) : Int) < ((10 ^ (k + 1) : Nat) : Int) := by
        rw [h1]; push_cast; omega
      exact_mod_cast h2
    exact numeral_length_le 10 (by decide) v.natAbs (k + 1) (by omega) this

theorem fmt_x_length_le (ks : Nat) (hks : 2 ≤ ks) (key : Nat)
    (hkey : key < 16 ^ (2 * ks - 2)) : (fmt_x key).length ≤ KEY_WIDTH ks - 2 := by
  have h1 : key % 2 ^ 32 < 16 ^ (2 * ks - 2) := lt_of_le_of_lt (Nat.mod_le _ _) hkey
  have h2 : KEY_WIDTH ks - 2 = 2 * ks - 2 := by unfold KEY_WIDTH; omega
  rw [h2]
  exact numeral_length_le 16 (by decide) _ _ (by omega) h1

theorem cstr_length_le (bytes : List Char) : (cstr bytes).length ≤ bytes.length :=
  (List.takeWhile_sublist _).length_le

theorem base_header (ks : Nat) (F : Facility) :
    print_report_header ks F.tag 0
      = [' '].intercalate (base_columns.map (Column.cell ks)) ++ ['\n'] := by
  rw [header_eq_cells]
  rfl

theorem padZero_length_ge (w : Nat) (s : List Char) : w ≤ (padZero w s).length := by
  simp [padZero]; omega

/-- C4, as stated, fails: a record with the 32-bit key `0xffffffff` (every
other field as the collector leaves it, the mode eleven characters) gives a
line of 54 characters under a six-column header line of 52. -/
theorem record_line_longer_than_header :
    (record_with_key 0xffffffff).key < 2 ^ 32 ∧
    (record_with_key 0xffffffff).mode.length = 11 ∧
    (print_record 4 MSG 0 (record_with_key 0xffffffff)).length = 54 ∧
    (print_report_header 4 MSG 0).length = 52 := by
  refine ⟨by decide, by decide, by decide, by decide⟩

/-- C4, amended: when the values of a record fit their columns (the id
between -10^9 and 10^10, the key below 16^(2*ks-2), a mode array of eleven
characters, owner and group, read as `int`, between -10^7 and 10^8), every
field of the record line is left-justified to exactly the width of its header
column, so the record line is as long as the six-column header line and every
field starts at the offset of its column name. -/
theorem record_line_aligned (ks : Nat) (hks : 2 ≤ ks) (F : Facility) (t : Char) (o : Nat)
    (e : ipc)
    (hid : -1000000000 < e.id ∧ e.id < 10000000000)
    (hkey : e.key < 16 ^ (2 * ks - 2))
    (hmode : e.mode.length = 11)
    (howner : -10000000 < as_int e.owner ∧ as_int e.owner < 100000000)
    (hgroup : -10000000 < as_int e.group ∧ as_int e.group < 100000000) :
    print_record ks t o e = [' '].intercalate (record_fields ks e) ++ ['\n'] ∧
    print_report_header ks F.tag 0
      = [' '].intercalate (base_columns.map (Column.cell ks)) ++ ['\n'] ∧
    (record_fields ks e).map List.length = base_columns.map (Column.width ks) ∧
    (base_columns.map (Column.cell ks)).map List.length = base_columns.map (Column.width ks) ∧
    (print_record ks t o e).length = (print_report_header ks F.tag 0).length := by
  have hf := print_record_eq_fields ks t o e
  have hh := base_header ks F
  have l1 : (padRight TYPE_WIDTH [e.type]).length = 1 := padRight_length _ _ (by simp [TYPE_WIDTH])
  have l2 : (padRight ID_WIDTH (fmt_d e.id)).length = 10 :=
    padRight_length _ _ (fmt_d_length_le e.id 9 (by decide) (by norm_num; exact hid.1)
      (by norm_num; exact hid.2))
  have l3 : (padZero (KEY_WIDTH ks - 2) (fmt_x e.key)).length = KEY_WIDTH ks - 2 :=
    padZero_length _ _ (fmt_x_length_le ks hks e.key hkey)
  have l4 : (padRight MODE_WIDTH (cstr e.mode)).length = 11 :=
    padRight_length _ _ (by have := cstr_length_le e.mode; rw [hmode] at this; exact this)
  have l5 : (padRight OWNER_WIDTH (fmt_d (as_int e.owner))).length = 8 :=
    padRight_length _ _ (fmt_d_length_le _ 7 (by decide) (by norm_num; exact howner.1)
      (by norm_num; exact howner.2))
  have l6 : (padRight GROUP_WIDTH (fmt_d (as_int e.group))).length = 8 :=
    padRight_length _ _ (fmt_d_length_le _ 7 (by decide) (by norm_num; exact hgroup.1)
      (by norm_num; exact hgroup.2))
  have hkw : KEY_WIDTH ks - 2 + 2 = 2 * ks := by unfold KEY_WIDTH; omega
  have hfields : (record_fields ks e).map List.length = base_columns.map (Column.width ks) := by
    simp only [record_fields, base_columns, List.map_cons, List.map_nil, List.length_cons, l1, l2,
      l3, l4, l5, l6, hkw, Column.width]
  have hcells : (base_columns.map (Column.cell ks)).map List.length
      = base_columns.map (Column.width ks) := by
    simp [base_columns, cell_length ks hks]
  refine ⟨hf, hh, hfields, hcells, ?_⟩
  rw [hf, hh]
  have e1 := cells_length ks hks base_columns
  have e2 : ([' '].intercalate (record_fields ks e)).length + 1
      = (base_columns.map (Column.width ks)).sum + 6 := by
    rw [← hfields]
    simp [record_fields, List.intercalate, List.intersperse]
    omega
  simp only [List.length_append, List.length_singleton]
  simp only [base_columns, List.length_cons, List.length_nil] at e1 e2 ⊢
  omega

/-- C4 amended, instance: the collector's record on a four-byte key. -/
theorem record_line_aligned_witness :
    2 ≤ 4 ∧
    (-1000000000 < (record_with_key 0).id ∧ (record_with_key 0).id < 10000000000) ∧
    (record_with_key 0).key < 16 ^ (2 * 4 - 2) ∧
    (record_with_key 0).mode.length = 11 ∧
    (-10000000 < as_int (record_with_key 0).owner
      ∧ as_int (record_with_key 0).owner < 100000000) ∧
    (-10000000 < as_int (record_with_key 0).group
      ∧ as_int (record_with_key 0).group < 100000000) ∧
    (print_record 4 MSG 0 (record_with_key 0)).length = (print_report_header 4 MSG 0).length :=
  ⟨by decide, by decide, by decide, by decide, by decide, by decide,
    (record_line_aligned 4 (by decide) Facility.msg MSG 0 (record_with_key 0)
      (by decide) (by decide) (by decide) (by decide) (by decide)).2.2.2.2⟩

/-- C5, as stated, fails: for the 32-bit key `0x1000000` the Key field is
`0x1000000`: nine characters, seven of them digits, where `2*sizeof(key_t)`
is eight. -/
theorem key_field_wider_than_column :
    (record_with_key 0x1000000).key < 2 ^ 32 ∧
    key_field 4 (record_with_key 0x1000000) = "0x1000000".toList ∧
    (key_field 4 (record_with_key 0x1000000)).length ≠ 2 * 4 ∧
    ((key_field 4 (record_with_key 0x1000000)).drop 2).length ≠ 2 * 4 := by
  refine ⟨by decide, by decide, by decide, by decide⟩

/-- C5, amended: for every 32-bit key the Key field is `0x` followed by the
key in lowercase hexadecimal, zero-padded to at least `2*ks - 2` digits;
reading the digits back yields the key; and for every key below
`16^(2*ks-2)` the field is exactly `2*ks` characters wide. -/
theorem key_field_hex (ks : Nat) (hks : 2 ≤ ks) (t : Char) (o : Nat) (e : ipc)
    (hkey : e.key < 2 ^ 32) :
    print_record ks t o e = [' '].intercalate (record_fields ks e) ++ ['\n'] ∧
    ∃ ds, key_field ks e = '0' :: 'x' :: ds ∧
      ds = padZero (2 * ks - 2) (numeral 16 e.key) ∧
      (∀ c ∈ ds, c ∈ "0123456789abcdef".toList) ∧
      2 * ks - 2 ≤ ds.length ∧
      readHex ds = e.key ∧
      (e.key < 16 ^ (2 * ks - 2) → (key_field ks e).length = 2 * ks) := by
  have hw : KEY_WIDTH ks - 2 = 2 * ks - 2 := by unfold KEY_WIDTH; omega
  have hx : fmt_x e.key = numeral 16 e.key := by
    unfold fmt_x; rw [Nat.mod_eq_of_lt hkey]
  have hk : key_field ks e = '0' :: 'x' :: padZero (2 * ks - 2) (numeral 16 e.key) := by
    rw [← hw, ← hx]; rfl
  refine ⟨print_record_eq_fields ks t o e, _, hk, rfl, ?_, padZero_length_ge _ _, ?_, ?_⟩
  · intro c hc
    simp only [padZero, List.mem_append, List.mem_replicate] at hc
    rcases hc with ⟨_, h⟩ | h
    · rw [h]; decide
    · exact digitsFuel_mem_hex _ _ c h
  · unfold padZero
    rw [readHex_zeros]
    exact readHex_digitsFuel (e.key + 1) e.key (by omega)
  · intro hsmall
    have := fmt_x_length_le ks hks e.key hsmall
    rw [hx, hw] at this
    rw [hk]
    simp only [List.length_cons, padZero_length _ _ this]
    omega

/-- C5 amended, instance: the key `0xbeef` on a four-byte key type. -/
theorem key_field_hex_witness :
    2 ≤ 4 ∧ (record_with_key 0xbeef).key < 2 ^ 32 ∧
    ∃ ds, key_field 4 (record_with_key 0xbeef) = '0' :: 'x' :: ds ∧
      ds = padZero (2 * 4 - 2) (numeral 16 (record_with_key 0xbeef).key) ∧
      (∀ c ∈ ds, c ∈ "0123456789abcdef".toList) ∧
      2 * 4 - 2 ≤ ds.length ∧
      readHex ds = (record_with_key 0xbeef).key ∧
      ((record_with_key 0xbeef).key < 16 ^ (2 * 4 - 2) →
        (key_field 4 (record_with_key 0xbeef)).length = 2 * 4) :=
  ⟨by decide, by decide,
    (key_field_hex 4 (by decide) MSG 0 (record_with_key 0xbeef) (by decide)).2⟩

/-! ## Helper lemmas: the option loop -/

theorem main_switch_unrecognised (f : Char) (hf : f ∉ recognised) (v : main_locals) :
    main_switch (getopt optstring f) v = none := by
  simp only [recognised, List.mem_cons, List.mem_singleton, List.not_mem_nil, or_false,
    not_or] at hf
  obtain ⟨h1, h2, h3, h4, h5, h6, h7, h8, h9⟩ := hf
  have : getopt optstring f = '?' := by
    simp [getopt, optstring, h1, h2, h3, h4, h5, h6, h7, h8, h9]
  rw [this]
  rfl

theorem main_switch_recognised (f : Char) (hf : f ∈ recognised) (v : main_locals) :
    main_switch (getopt optstring f) v
      = some { msgs := if f = 'q' then 1 else v.msgs,
               shms := if f = 'm' then 1 else v.shms,
               sems := if f = 's' then 1 else v.sems,
               print := option_step v.print f } := by
  simp only [recognised, List.mem_cons, List.mem_singleton, List.not_mem_nil, or_false] at hf
  rcases hf with h | h | h | h | h | h | h | h | h <;> subst h <;> rfl

theorem main_loop_closed (flags : List Char) :
    ∀ (v : main_locals), (∀ f ∈ flags, f ∈ recognised) →
      main_loop flags v
        = some { msgs := if 'q' ∈ flags then 1 else v.msgs,
                 shms := if 'm' ∈ flags then 1 else v.shms,
                 sems := if 's' ∈ flags then 1 else v.sems,
                 print := option_bits v.print flags } := by
  induction flags with
  | nil => intro v _; simp [main_loop, option_bits]
  | cons f rest ih =>
    intro v h
    have hf : f ∈ recognised := h f (by simp)
    have hr : ∀ g ∈ rest, g ∈ recognised := fun g hg => h g (by simp [hg])
    simp only [main_loop, main_switch_recognised f hf v, ih _ hr, option_bits]
    by_cases hq : f = 'q' <;> by_cases hm : f = 'm' <;> by_cases hs : f = 's' <;>
      simp [hq, hm, hs, eq_comm]

theorem main_loop_none (flags : List Char) :
    ∀ (v : main_locals), main_loop flags v = none ↔ ∃ f ∈ flags, f ∉ recognised := by
  induction flags with
  | nil => intro v; simp [main_loop]
  | cons f rest ih =>
    intro v
    by_cases hf : f ∈ recognised
    · simp only [main_loop, main_switch_recognised f hf v, ih]
      simp [hf]
    · simp only [main_loop, main_switch_unrecognised f hf v]
      simp [hf]

theorem report_some (ks : Nat) (F : Facility) (p : Nat) :
    print_report ks F.tag p (ipcs F.tag) = some (report_text ks F p) :=
  (report_lines ks F p (ipcs F.tag) (by simp [ipcs])).1

theorem main_closed (ks : Nat) (date flags : List Char) (h : ∀ f ∈ flags, f ∈ recognised) :
    main ks date flags
      = some (0, print_header date
          ++ (if selected flags 'q' then report_text ks Facility.msg (option_bits 0 flags) else [])
          ++ (if selected flags 'm' then report_text ks Facility.shm (option_bits 0 flags) else [])
          ++ (if selected flags 's' then report_text ks Facility.sem (option_bits 0 flags) else []))
    := by
  have e1 := report_some ks Facility.msg (option_bits 0 flags)
  have e2 := report_some ks Facility.shm (option_bits 0 flags)
  have e3 := report_some ks Facility.sem (option_bits 0 flags)
  simp only [Facility.tag] at e1 e2 e3
  unfold main
  rw [main_loop_closed flags _ h]
  by_cases hq : 'q' ∈ flags <;> by_cases hm : 'm' ∈ flags <;> by_cases hs : 's' ∈ flags <;>
    simp [main_default, main_section, selected, hq, hm, hs, e1, e2, e3]

theorem option_step_all (f : Char) : option_step 31 f = 31 := by
  unfold option_step
  repeat' split
  all_goals rfl

theorem option_bits_all_fixed (flags : List Char) : option_bits 31 flags = 31 := by
  induction flags with
  | nil => rfl
  | cons f rest ih => simp only [option_bits, option_step_all, ih]

theorem option_bits_of_a (flags : List Char) :
    ∀ p : Nat, 'a' ∈ flags → option_bits p flags = 31 := by
  induction flags with
  | nil => intro p h; simp at h
  | cons f rest ih =>
    intro p h
    by_cases hf : f = 'a'
    · subst hf
      have : option_step p 'a' = 31 := rfl
      simp only [option_bits, this, option_bits_all_fixed]
    · have hr : 'a' ∈ rest := by
        simp only [List.mem_cons] at h
        rcases h with h | h
        · exact absurd h.symm hf
        · exact h
      simp only [option_bits, ih _ hr]

theorem lor_five (p : Nat) (hp : p < 32) : p ||| 1 ||| 2 ||| 4 ||| 8 ||| 16 = 31 := by
  interval_cases p <;> rfl

theorem option_step_lt (p : Nat) (hp : p < 32) (f : Char) : option_step p f < 32 := by
  unfold option_step BYTES CREATOR OUTSTANDING PROCESS TIME
  repeat' split
  all_goals first
    | exact hp
    | decide
    | exact @Nat.or_lt_two_pow _ _ 5 hp (by decide)

theorem option_bits_append (a b : List Char) :
    ∀ p : Nat, option_bits p (a ++ b) = option_bits (option_bits p a) b := by
  induction a with
  | nil => intro p; rfl
  | cons f rest ih =>
    intro p
    exact ih (option_step p f)

theorem option_bits_replace_a (flags : List Char) :
    ∀ p : Nat, p < 32 → option_bits p (replace_a flags) = option_bits p flags := by
  induction flags with
  | nil => intro p _; rfl
  | cons f rest ih =>
    intro p hp
    by_cases hf : f = 'a'
    · subst hf
      have e : option_bits p ['b', 'c', 'o', 'p', 't'] = 31 := lor_five p hp
      have e2 : option_step p 'a' = 31 := rfl
      show option_bits p (['b', 'c', 'o', 'p', 't'] ++ replace_a rest)
          = option_bits (option_step p 'a') rest
      rw [option_bits_append, e, e2, ih 31 (by decide)]
    · show option_bits p ((if f = 'a' then ['b', 'c', 'o', 'p', 't'] else [f]) ++ replace_a rest)
          = option_bits (option_step p f) rest
      rw [if_neg hf]
      exact ih _ (option_step_lt p hp f)

theorem mem_replace_a (x : Char) (hx : x = 'q' ∨ x = 'm' ∨ x = 's') (flags : List Char) :
    x ∈ replace_a flags ↔ x ∈ flags := by
  induction flags with
  | nil => simp [replace_a]
  | cons f rest ih =>
    by_cases hf : f = 'a'
    · subst hf
      rcases hx with h | h | h <;> subst h <;> simp [replace_a, ih]
    · simp [replace_a, hf, ih]

theorem recognised_replace_a (flags : List Char) (h : ∀ f ∈ flags, f ∈ recognised) :
    ∀ f ∈ replace_a flags, f ∈ recognised := by
  induction flags with
  | nil => intro f hf; simp [replace_a] at hf
  | cons g rest ih =>
    intro f hf
    have hr : ∀ f ∈ rest, f ∈ recognised := fun f hf => h f (by simp [hf])
    simp only [replace_a, List.mem_append] at hf
    rcases hf with hf | hf
    · by_cases hg : g = 'a'
      · simp only [hg, if_true, List.mem_cons, List.mem_singleton, List.not_mem_nil,
          or_false] at hf
        rcases hf with e | e | e | e | e <;> subst e <;> decide
      · simp only [if_neg hg, List.mem_singleton] at hf
        subst hf
        exact h f (by simp)
    · exact ih hr f hf

theorem selected_replace_a (flags : List Char) (x : Char) (hx : x = 'q' ∨ x = 'm' ∨ x = 's') :
    selected (replace_a flags) x = selected flags x := by
  simp only [selected, mem_replace_a x hx, mem_replace_a 'q' (Or.inl rfl),
    mem_replace_a 'm' (Or.inr (Or.inl rfl)), mem_replace_a 's' (Or.inr (Or.inr rfl))]

theorem option_bits_filter (flags : List Char) :
    ∀ p : Nat, option_bits p (flags.filter (fun f => !(f == 'q' || f == 'm' || f == 's')))
      = option_bits p flags := by
  induction flags with
  | nil => intro p; rfl
  | cons f rest ih =>
    intro p
    by_cases hf : (f == 'q' || f == 'm' || f == 's') = true
    · rw [List.filter_cons_of_neg (by simp only [hf]; decide)]
      have : option_step p f = p := by
        simp only [Bool.or_eq_true, beq_iff_eq] at hf
        rcases hf with (h | h) | h <;> subst h <;> rfl
      show _ = option_bits (option_step p f) rest
      rw [this]
      exact ih p
    · rw [List.filter_cons_of_pos (by simp only [hf]; decide)]
      exact ih _

/-! ## Helper lemmas: the lines of a section -/

theorem collector_line (ks : Nat) (F : Facility) (p : Nat) :
    print_records ks F.tag p (ipcs F.tag)
      = (F.tag :: " 0          0x".toList ++ List.replicate (KEY_WIDTH ks - 2 - 1) '0'
          ++ "0 ----------- 0        0       ".toList) ++ '\n' :: [] := by
  have hx : fmt_x 0 = ['0'] := by decide
  have hd : fmt_d (as_int 0) = ['0'] := by decide
  have hd0 : fmt_d 0 = ['0'] := by decide
  have hm : cstr (List.replicate 11 '-') = List.replicate 11 '-' := by decide
  simp only [print_records, ipcs, print_record, printf_c, printf_d, printf_0x, printf_s,
    print_user, print_group, hx, hd, hd0, hm, padRight, padZero, TYPE_WIDTH, ID_WIDTH,
    MODE_WIDTH, OWNER_WIDTH, GROUP_WIDTH]
  simp [List.replicate]

theorem collector_lines (ks : Nat) (F : Facility) (p : Nat) :
    lines (print_records ks F.tag p (ipcs F.tag))
      = [F.tag :: " 0          0x".toList ++ List.replicate (KEY_WIDTH ks - 2 - 1) '0'
          ++ "0 ----------- 0        0       ".toList] := by
  rw [collector_line]
  unfold lines
  rw [linesAux_append_newline]
  · simp [linesAux]
  · cases F <;> simp [Facility.tag, MSG, SHM, SEM, List.mem_replicate]

theorem section_lines (ks : Nat) (F : Facility) (p : Nat) :
    lines (report_text ks F p)
      = [F.display ++ [':'],
         [' '].intercalate ((spec_columns F p).map (Column.cell ks)),
         F.tag :: " 0          0x".toList ++ List.replicate (KEY_WIDTH ks - 2 - 1) '0'
          ++ "0 ----------- 0        0       ".toList] := by
  unfold report_text
  rw [(report_lines ks F p (ipcs F.tag) (by simp [ipcs])).2, collector_lines]

theorem section_line_heads (ks : Nat) (F : Facility) (p : Nat) :
    ∀ line ∈ lines (report_text ks F p), line.head? ≠ some 'I' := by
  intro line h
  rw [section_lines] at h
  simp only [List.mem_cons, List.mem_singleton, List.not_mem_nil, or_false] at h
  rcases h with h | h | h
  · subst h; cases F <;> decide
  · subst h
    have : ∃ r, spec_columns F p = Column.type :: r := ⟨_, rfl⟩
    obtain ⟨r, hr⟩ := this
    rw [hr]
    cases r with
    | nil => simp [intercalate_single, Column.cell, padRight, Column.name]
    | cons d r =>
      rw [List.map_cons, List.map_cons, intercalate_cons_cons]
      simp [Column.cell, padRight, Column.name]
  · subst h; cases F <;> simp [Facility.tag, MSG, SHM, SEM]

/-- C7: `main` always returns; its exit status is 1 exactly when the option
list holds a flag outside `q m s a b c o p t`, and then it has printed
nothing at all; for a list of recognised flags only the status is 0. -/
theorem exit_status_and_silence (ks : Nat) (date flags : List Char) :
    ∃ st out, main ks date flags = some (st, out) ∧
      (st = 1 ↔ ∃ f ∈ flags, f ∉ recognised) ∧
      ((∃ f ∈ flags, f ∉ recognised) → out = []) ∧
      ((∀ f ∈ flags, f ∈ recognised) → st = 0) := by
  by_cases h : ∃ f ∈ flags, f ∉ recognised
  · have hn := (main_loop_none flags { msgs := 0, shms := 0, sems := 0, print := 0 }).2 h
    refine ⟨1, [], ?_, ?_, ?_, ?_⟩
    · simp [main, hn]
    · simp [h]
    · intro _; rfl
    · intro hall
      obtain ⟨f, hf, hbad⟩ := h
      exact absurd (hall f hf) hbad
  · have hall : ∀ f ∈ flags, f ∈ recognised := by
      intro f hf
      by_contra hbad
      exact h ⟨f, hf, hbad⟩
    refine ⟨0, _, main_closed ks date flags hall, ?_, ?_, ?_⟩
    · simp [h]
    · intro hbad; exact absurd hbad h
    · intro _; rfl

/-- C8: for recognised flags with none of `q`, `m`, `s`, `main` exits with 0
and prints the banner and then the reports of all three facilities, message
queues, shared memory, semaphores, in this order; and any flag list obtained
by adding `q`, `m` and `s` (all three, anywhere) gives the same result. -/
theorem no_facility_flag_reports_all (ks : Nat) (date flags : List Char)
    (hrec : ∀ f ∈ flags, f ∈ recognised)
    (hq : 'q' ∉ flags) (hm : 'm' ∉ flags) (hs : 's' ∉ flags) :
    ∃ v s1 s2 s3,
      main_loop flags { msgs := 0, shms := 0, sems := 0, print := 0 } = some v ∧
      print_report ks MSG v.print (ipcs MSG) = some s1 ∧
      print_report ks SHM v.print (ipcs SHM) = some s2 ∧
      print_report ks SEM v.print (ipcs SEM) = some s3 ∧
      main ks date flags = some (0, print_header date ++ s1 ++ s2 ++ s3) ∧
      ∀ flags2 : List Char,
        flags2.filter (fun f => !(f == 'q' || f == 'm' || f == 's')) = flags →
        'q' ∈ flags2 → 'm' ∈ flags2 → 's' ∈ flags2 →
        main ks date flags2 = main ks date flags := by
  have hmain := main_closed ks date flags hrec
  have hsel : ∀ x, selected flags x = true := by
    intro x; simp [selected, hq, hm, hs]
  refine ⟨_, _, _, _, main_loop_closed flags _ hrec,
    report_some ks Facility.msg _, report_some ks Facility.shm _,
    report_some ks Facility.sem _, ?_, ?_⟩
  · simpa [hsel] using hmain
  · intro flags2 hfil h2q h2m h2s
    have hrec2 : ∀ f ∈ flags2, f ∈ recognised := by
      intro f hf
      by_cases hfac : (f == 'q' || f == 'm' || f == 's') = true
      · simp only [Bool.or_eq_true, beq_iff_eq] at hfac
        rcases hfac with (e | e) | e <;> subst e <;> decide
      · apply hrec
        rw [← hfil]
        exact List.mem_filter.2 ⟨hf, by simp only [hfac]; decide⟩
    have hbits : option_bits 0 flags2 = option_bits 0 flags := by
      rw [← hfil, option_bits_filter]
    have hsel2 : ∀ x, x = 'q' ∨ x = 'm' ∨ x = 's' → selected flags2 x = true := by
      intro x hx
      rcases hx with e | e | e <;> subst e <;> simp [selected, h2q, h2m, h2s]
    rw [main_closed ks date flags2 hrec2, hmain, hbits,
      hsel2 'q' (Or.inl rfl), hsel2 'm' (Or.inr (Or.inl rfl)), hsel2 's' (Or.inr (Or.inr rfl)),
      hsel 'q', hsel 'm', hsel 's']

/-- C8, instance: the flag list `t`, and the list `q t s m` derived from it. -/
theorem no_facility_flag_reports_all_witness :
    (∀ f ∈ ['t'], f ∈ recognised) ∧ 'q' ∉ ['t'] ∧ 'm' ∉ ['t'] ∧ 's' ∉ ['t'] ∧
    ∃ s1 s2 s3,
      print_report 4 MSG TIME (ipcs MSG) = some s1 ∧
      print_report 4 SHM TIME (ipcs SHM) = some s2 ∧
      print_report 4 SEM TIME (ipcs SEM) = some s3 ∧
      main 4 [] ['t'] = some (0, print_header [] ++ s1 ++ s2 ++ s3) ∧
      main 4 [] ['q', 't', 's', 'm'] = main 4 [] ['t'] := by
  have hrec : ∀ f ∈ ['t'], f ∈ recognised := by decide
  obtain ⟨v, s1, s2, s3, hv, h1, h2, h3, h4, h5⟩ :=
    no_facility_flag_reports_all 4 [] ['t'] hrec (by decide) (by decide) (by decide)
  have hp : v.print = TIME := by
    have : some v = some { msgs := 0, shms := 0, sems := 0, print := TIME } := by
      rw [← hv]; rfl
    injection this with e
    rw [e]
  rw [hp] at h1 h2 h3
  exact ⟨hrec, by decide, by decide, by decide, s1, s2, s3, h1, h2, h3, h4,
    h5 ['q', 't', 's', 'm'] (by decide) (by decide) (by decide) (by decide)⟩

/-- C9: for recognised flags with at least one of `q`, `m`, `s`, `main` exits
with 0 and prints the banner first and once, then one section for each
facility whose flag occurs in the list and for no other, always in the order
message queues, shared memory, semaphores, whatever the order or repetition of
the flags. -/
theorem sections_follow_banner_in_fixed_order (ks : Nat) (date flags : List Char)
    (hrec : ∀ f ∈ flags, f ∈ recognised)
    (hsel : 'q' ∈ flags ∨ 'm' ∈ flags ∨ 's' ∈ flags) :
    ∃ v s1 s2 s3,
      main_loop flags { msgs := 0, shms := 0, sems := 0, print := 0 } = some v ∧
      print_report ks MSG v.print (ipcs MSG) = some s1 ∧
      print_report ks SHM v.print (ipcs SHM) = some s2 ∧
      print_report ks SEM v.print (ipcs SEM) = some s3 ∧
      main ks date flags
        = some (0, print_header date
            ++ (if 'q' ∈ flags then s1 else [])
            ++ (if 'm' ∈ flags then s2 else [])
            ++ (if 's' ∈ flags then s3 else [])) ∧
      print_header date = "IPC status from <source> as of ".toList ++ date ++ ['\n'] ∧
      ∀ s ∈ [s1, s2, s3], ∀ line ∈ lines s, line.head? ≠ some 'I' := by
  have hmain := main_closed ks date flags hrec
  have hnone : (!decide ('q' ∈ flags) && !decide ('m' ∈ flags) && !decide ('s' ∈ flags))
      = false := by
    rcases hsel with h | h | h <;> simp [h]
  have hs : ∀ x, selected flags x = decide (x ∈ flags) := by
    intro x; simp only [selected, hnone, Bool.or_false]
  refine ⟨_, _, _, _, main_loop_closed flags _ hrec,
    report_some ks Facility.msg _, report_some ks Facility.shm _,
    report_some ks Facility.sem _, ?_, ?_, ?_⟩
  · simpa [hs] using hmain
  · simp [print_header]
  · intro s hmem
    simp only [List.mem_cons, List.mem_singleton, List.not_mem_nil, or_false] at hmem
    rcases hmem with e | e | e <;> subst e <;> exact section_line_heads ks _ _

/-- C9, instance: the flags `s q` print message queues before semaphores and
no shared-memory section. -/
theorem sections_follow_banner_in_fixed_order_witness :
    (∀ f ∈ ['s', 'q'], f ∈ recognised) ∧
    ('q' ∈ ['s', 'q'] ∨ 'm' ∈ ['s', 'q'] ∨ 's' ∈ ['s', 'q']) ∧
    ∃ s1 s3,
      print_report 4 MSG 0 (ipcs MSG) = some s1 ∧
      print_report 4 SEM 0 (ipcs SEM) = some s3 ∧
      main 4 [] ['s', 'q'] = some (0, print_header [] ++ s1 ++ s3) := by
  have hrec : ∀ f ∈ ['s', 'q'], f ∈ recognised := by decide
  obtain ⟨v, s1, s2, s3, hv, h1, h2, h3, h4, _, _⟩ :=
    sections_follow_banner_in_fixed_order 4 [] ['s', 'q'] hrec (by decide)
  have hp : v.print = 0 := by
    have : some v = some { msgs := 1, shms := 0, sems := 1, print := 0 } := by
      rw [← hv]; rfl
    injection this with e
    rw [e]
  rw [hp] at h1 h3
  refine ⟨hrec, by decide, s1, s3, h1, h3, ?_⟩
  rw [h4]
  simp

/-! ## Helper lemmas: column selection -/

theorem report_header_columns (ks : Nat) (F : Facility) (o : Nat) (l : List ipc)
    (hl : l ≠ []) :
    ∃ out, print_report ks F.tag o l = some out ∧
      columns (header_line out) = (spec_columns F o).map Column.name := by
  obtain ⟨h1, h2⟩ := report_lines ks F o l hl
  refine ⟨_, h1, ?_⟩
  unfold header_line
  rw [h2]
  exact columns_cells ks _

theorem hasOpt_of_subset (o o2 b : Nat) (h : o &&& o2 = o) (hb : hasOpt o b = true) :
    hasOpt o2 b = true := by
  simp only [hasOpt, bne_iff_ne, ne_eq] at hb ⊢
  intro h0
  apply hb
  rw [← h, Nat.and_assoc, h0, Nat.and_zero]

theorem tier_sublist {α : Type} (c c2 : Bool) (x : List α) (h : c = true → c2 = true) :
    (if c then x else []).Sublist (if c2 then x else []) := by
  cases c with
  | false => exact List.nil_sublist _
  | true => rw [h rfl]

theorem spec_columns_sublist (F : Facility) (o o2 : Nat)
    (h : ∀ b, (b = BYTES ∨ b = CREATOR ∨ b = OUTSTANDING ∨ b = PROCESS ∨ b = TIME) →
      hasOpt o b = true → hasOpt o2 b = true) :
    (spec_columns F o).Sublist (spec_columns F o2) := by
  unfold spec_columns
  exact ((((List.Sublist.refl _).append
    (tier_sublist _ _ _ (h CREATOR (by simp)))).append
    (tier_sublist _ _ _ (h OUTSTANDING (by simp)))).append
    (tier_sublist _ _ _ (h BYTES (by simp)))).append
    (tier_sublist _ _ _ (h PROCESS (by simp))) |>.append
    (tier_sublist _ _ _ (h TIME (by simp)))

theorem spec_columns_base (F : Facility) (o : Nat) :
    ∃ rest, spec_columns F o = base_columns ++ rest ∧
      (rest ≠ [] ↔ adds_column F o = true) := by
  refine ⟨(spec_columns F o).drop 6, ?_, ?_⟩
  · simp [spec_columns, base_columns]
  · unfold spec_columns adds_column
    cases F <;> cases hasOpt o CREATOR <;> cases hasOpt o OUTSTANDING <;>
      cases hasOpt o BYTES <;> cases hasOpt o PROCESS <;> cases hasOpt o TIME <;> simp

theorem spec_columns_full (F : Facility) :
    (spec_columns F (BYTES ||| CREATOR ||| OUTSTANDING ||| PROCESS ||| TIME)).map Column.name
      = full_header F := by
  cases F <;> rfl

theorem hasOpt_full (o b : Nat) (hb : hasOpt o b = true)
    (hmem : b = BYTES ∨ b = CREATOR ∨ b = OUTSTANDING ∨ b = PROCESS ∨ b = TIME) :
    hasOpt (BYTES ||| CREATOR ||| OUTSTANDING ||| PROCESS ||| TIME) b = true := by
  rcases hmem with e | e | e | e | e <;> subst e <;> rfl

theorem option_step_bits (a b c o p t : Bool) (f : Char) :
    option_step (bits_of a b c o p t) f
      = bits_of (a || decide (f = 'a')) (b || decide (f = 'b')) (c || decide (f = 'c'))
          (o || decide (f = 'o')) (p || decide (f = 'p')) (t || decide (f = 't')) := by
  by_cases h1 : f = 'a'
  · subst h1
    cases a <;> cases b <;> cases c <;> cases o <;> cases p <;> cases t <;> rfl
  by_cases h2 : f = 'b'
  · subst h2
    cases a <;> cases b <;> cases c <;> cases o <;> cases p <;> cases t <;> rfl
  by_cases h3 : f = 'c'
  · subst h3
    cases a <;> cases b <;> cases c <;> cases o <;> cases p <;> cases t <;> rfl
  by_cases h4 : f = 'o'
  · subst h4
    cases a <;> cases b <;> cases c <;> cases o <;> cases p <;> cases t <;> rfl
  by_cases h5 : f = 'p'
  · subst h5
    cases a <;> cases b <;> cases c <;> cases o <;> cases p <;> cases t <;> rfl
  by_cases h6 : f = 't'
  · subst h6
    cases a <;> cases b <;> cases c <;> cases o <;> cases p <;> cases t <;> rfl
  simp [option_step, h1, h2, h3, h4, h5, h6]

theorem option_bits_bits (flags : List Char) :
    ∀ a b c o p t : Bool,
      option_bits (bits_of a b c o p t) flags
        = bits_of (a || decide ('a' ∈ flags)) (b || decide ('b' ∈ flags))
            (c || decide ('c' ∈ flags)) (o || decide ('o' ∈ flags))
            (p || decide ('p' ∈ flags)) (t || decide ('t' ∈ flags)) := by
  induction flags with
  | nil => intro a b c o p t; simp [option_bits]
  | cons f rest ih =>
    intro a b c o p t
    show option_bits (option_step (bits_of a b c o p t) f) rest = _
    rw [option_step_bits, ih]
    simp [List.mem_cons, Bool.or_assoc, eq_comm]

theorem option_bits_of_set (flags : List Char) :
    option_bits 0 flags
      = bits_of (decide ('a' ∈ flags)) (decide ('b' ∈ flags)) (decide ('c' ∈ flags))
          (decide ('o' ∈ flags)) (decide ('p' ∈ flags)) (decide ('t' ∈ flags)) := by
  have h := option_bits_bits flags false false false false false false
  simpa [bits_of] using h

theorem option_bits_same_set (fs1 fs2 : List Char) (h : ∀ f, f ∈ fs1 ↔ f ∈ fs2) :
    option_bits 0 fs1 = option_bits 0 fs2 := by
  rw [option_bits_of_set, option_bits_of_set]
  simp only [h]

theorem selected_same_set (fs1 fs2 : List Char) (h : ∀ f, f ∈ fs1 ↔ f ∈ fs2) (x : Char) :
    selected fs1 x = selected fs2 x := by
  simp only [selected, h]

/-- C11: two lists of recognised flags with the same set of flags (in any
order, with any repetition) leave the option loop with the same facility
selection and the same option bitset, so `main` prints the same output; and
for each facility the header columns of its report form a sublist of the full
column list in the fixed tier order Creator, Outstanding, Bytes, Process,
Time. -/
theorem same_flag_set_same_report (ks : Nat) (date fs1 fs2 : List Char)
    (h1 : ∀ f ∈ fs1, f ∈ recognised) (h2 : ∀ f ∈ fs2, f ∈ recognised)
    (hset : ∀ f, f ∈ fs1 ↔ f ∈ fs2) :
    ∃ v1 v2,
      main_loop fs1 { msgs := 0, shms := 0, sems := 0, print := 0 } = some v1 ∧
      main_loop fs2 { msgs := 0, shms := 0, sems := 0, print := 0 } = some v2 ∧
      v1 = v2 ∧
      main ks date fs1 = main ks date fs2 ∧
      ∀ F : Facility, ∃ out,
        print_report ks F.tag v1.print (ipcs F.tag) = some out ∧
        columns (header_line out) = (spec_columns F v1.print).map Column.name ∧
        (columns (header_line out)).Sublist (full_header F) := by
  have hb := option_bits_same_set fs1 fs2 hset
  refine ⟨_, _, main_loop_closed fs1 _ h1, main_loop_closed fs2 _ h2, ?_, ?_, ?_⟩
  · simp only [hset, hb]
  · rw [main_closed ks date fs1 h1, main_closed ks date fs2 h2, hb,
      selected_same_set fs1 fs2 hset 'q', selected_same_set fs1 fs2 hset 'm',
      selected_same_set fs1 fs2 hset 's']
  · intro F
    obtain ⟨out, ho, hc⟩ :=
      report_header_columns ks F (option_bits 0 fs1) (ipcs F.tag) (by simp [ipcs])
    refine ⟨out, ho, hc, ?_⟩
    rw [hc, ← spec_columns_full F]
    apply List.Sublist.map
    apply spec_columns_sublist
    intro b hmem hb1
    exact hasOpt_full _ b hb1 hmem

/-- C11, instance: the flags `t q c` and `c c q t q`. -/
theorem same_flag_set_same_report_witness :
    (∀ f ∈ ['t', 'q', 'c'], f ∈ recognised) ∧
    (∀ f ∈ ['c', 'c', 'q', 't', 'q'], f ∈ recognised) ∧
    (∀ f, f ∈ ['t', 'q', 'c'] ↔ f ∈ ['c', 'c', 'q', 't', 'q']) ∧
    main 4 [] ['t', 'q', 'c'] = main 4 [] ['c', 'c', 'q', 't', 'q'] := by
  have h1 : ∀ f ∈ ['t', 'q', 'c'], f ∈ recognised := by decide
  have h2 : ∀ f ∈ ['c', 'c', 'q', 't', 'q'], f ∈ recognised := by decide
  have hset : ∀ f, f ∈ ['t', 'q', 'c'] ↔ f ∈ ['c', 'c', 'q', 't', 'q'] := by
    intro f
    simp only [List.mem_cons, List.mem_singleton, List.not_mem_nil, or_false]
    tauto
  obtain ⟨_, _, _, _, _, hm, _⟩ :=
    same_flag_set_same_report 4 [] ['t', 'q', 'c'] ['c', 'c', 'q', 't', 'q'] h1 h2 hset
  exact ⟨h1, h2, hset, hm⟩

/-- C12, as stated, fails: with the empty bitset the header of a message
queue report is exactly the six base columns, and so is the header of a
semaphore report under Outstanding and Process; no further column follows. -/
theorem header_may_be_base_only :
    (∃ out, print_report 4 MSG 0 (ipcs MSG) = some out ∧
      columns (header_line out)
        = ["T".toList, "ID".toList, "KEY".toList, "MODE".toList, "OWNER".toList,
           "GROUP".toList]) ∧
    (∃ out, print_report 4 SEM (OUTSTANDING ||| PROCESS) (ipcs SEM) = some out ∧
      columns (header_line out)
        = ["T".toList, "ID".toList, "KEY".toList, "MODE".toList, "OWNER".toList,
           "GROUP".toList]) :=
  ⟨⟨_, rfl, by decide⟩, ⟨_, rfl, by decide⟩⟩

/-- C12, amended: for every facility and option bitset the header column list
begins with T, ID, KEY, MODE, OWNER, GROUP in that order, and it has a further
column after them exactly when the bitset selects a tier with a column for the
facility (Creator, Bytes or Time; Outstanding or Process for message queues
and shared memory). -/
theorem header_extends_base (ks : Nat) (F : Facility) (o : Nat) (l : List ipc)
    (hl : l ≠ []) :
    ∃ out rest, print_report ks F.tag o l = some out ∧
      columns (header_line out)
        = ["T".toList, "ID".toList, "KEY".toList, "MODE".toList, "OWNER".toList,
           "GROUP".toList] ++ rest ∧
      (rest ≠ [] ↔ adds_column F o = true) := by
  obtain ⟨out, ho, hc⟩ := report_header_columns ks F o l hl
  obtain ⟨r, hr, hiff⟩ := spec_columns_base F o
  refine ⟨out, r.map Column.name, ho, ?_, ?_⟩
  · rw [hc, hr, List.map_append]
    rfl
  · rw [← hiff]
    simp

/-- C12 amended, instance: shared memory with the Bytes option. -/
theorem header_extends_base_witness :
    ipcs SHM ≠ [] ∧
    ∃ out rest, print_report 4 SHM BYTES (ipcs SHM) = some out ∧
      columns (header_line out)
        = ["T".toList, "ID".toList, "KEY".toList, "MODE".toList, "OWNER".toList,
           "GROUP".toList] ++ rest ∧
      (rest ≠ [] ↔ adds_column Facility.shm BYTES = true) :=
  ⟨by decide, header_extends_base 4 Facility.shm BYTES (ipcs SHM) (by decide)⟩

/-- C19: column selection is monotone: when the bitset `o` is a subset of
`o2`, the header columns for `o` are a subsequence of those for `o2`; and the
header for the empty bitset, the six base columns, is a prefix of every
header. -/
theorem header_columns_monotone (ks : Nat) (F : Facility) (o o2 : Nat) (l : List ipc)
    (hl : l ≠ []) (hsub : o &&& o2 = o) :
    ∃ out out2 out0,
      print_report ks F.tag o l = some out ∧
      print_report ks F.tag o2 l = some out2 ∧
      print_report ks F.tag 0 l = some out0 ∧
      (columns (header_line out)).Sublist (columns (header_line out2)) ∧
      columns (header_line out0)
        = ["T".toList, "ID".toList, "KEY".toList, "MODE".toList, "OWNER".toList,
           "GROUP".toList] ∧
      columns (header_line out0) <+: columns (header_line out) := by
  obtain ⟨out, ho, hc⟩ := report_header_columns ks F o l hl
  obtain ⟨out2, ho2, hc2⟩ := report_header_columns ks F o2 l hl
  obtain ⟨out0, ho0, hc0⟩ := report_header_columns ks F 0 l hl
  obtain ⟨r, hr, _⟩ := spec_columns_base F o
  have h0 : spec_columns F 0 = base_columns := by
    simp [spec_columns, hasOpt, base_columns]
  refine ⟨out, out2, out0, ho, ho2, ho0, ?_, ?_, ?_⟩
  · rw [hc, hc2]
    exact (spec_columns_sublist F o o2 (fun b _ hb => hasOpt_of_subset o o2 b hsub hb)).map _
  · rw [hc0, h0]; rfl
  · rw [hc0, hc, h0, hr, List.map_append]
    exact List.prefix_append _ _

/-- C19, instance: Time alone against Creator and Time, for semaphores. -/
theorem header_columns_monotone_witness :
    ipcs SEM ≠ [] ∧ TIME &&& (CREATOR ||| TIME) = TIME ∧
    ∃ out out2 out0,
      print_report 4 SEM TIME (ipcs SEM) = some out ∧
      print_report 4 SEM (CREATOR ||| TIME) (ipcs SEM) = some out2 ∧
      print_report 4 SEM 0 (ipcs SEM) = some out0 ∧
      (columns (header_line out)).Sublist (columns (header_line out2)) ∧
      columns (header_line out0)
        = ["T".toList, "ID".toList, "KEY".toList, "MODE".toList, "OWNER".toList,
           "GROUP".toList] ∧
      columns (header_line out0) <+: columns (header_line out) :=
  ⟨by decide, by decide,
    header_columns_monotone 4 Facility.sem TIME (CREATOR ||| TIME) (ipcs SEM)
      (by decide) (by decide)⟩

/-! ## Helper lemmas: the lines of the output of `main` -/

theorem linesAux_append_after_newline (x : List Char) :
    ∀ (cur b : List Char),
      linesAux cur (x ++ '\n' :: b) = linesAux cur (x ++ ['\n']) ++ linesAux [] b := by
  induction x with
  | nil => intro cur b; simp [linesAux]
  | cons c x ih =>
    intro cur b
    by_cases hc : c = '\n'
    · subst hc
      simp [linesAux, ih [] b]
    · simp [linesAux, hc, ih (cur ++ [c]) b]

theorem report_text_ends (ks : Nat) (F : Facility) (p : Nat) :
    ∃ x, report_text ks F p = x ++ ['\n'] := by
  refine ⟨F.display ++ ":\n".toList ++ print_report_header ks F.tag p
    ++ (F.tag :: " 0          0x".toList ++ List.replicate (KEY_WIDTH ks - 2 - 1) '0'
          ++ "0 ----------- 0        0       ".toList), ?_⟩
  unfold report_text
  rw [collector_line]
  simp

theorem lines_section_append (ks : Nat) (F : Facility) (p : Nat) (rest : List Char) :
    lines (report_text ks F p ++ rest) = lines (report_text ks F p) ++ lines rest := by
  obtain ⟨x, hx⟩ := report_text_ends ks F p
  rw [hx]
  unfold lines
  have : x ++ ['\n'] ++ rest = x ++ '\n' :: rest := by simp
  rw [this, linesAux_append_after_newline]

theorem section_lines_eq (ks : Nat) (F : Facility) (p : Nat) :
    lines (report_text ks F p) = section_lines_of ks F p := by
  rw [section_lines]
  unfold section_lines_of
  rw [header_eq_cells, collector_line, List.dropLast_concat]
  have : (F.tag :: " 0          0x".toList ++ List.replicate (KEY_WIDTH ks - 2 - 1) '0'
          ++ "0 ----------- 0        0       ".toList) ++ '\n' :: []
      = (F.tag :: " 0          0x".toList ++ List.replicate (KEY_WIDTH ks - 2 - 1) '0'
          ++ "0 ----------- 0        0       ".toList) ++ ['\n'] := rfl
  rw [this, List.dropLast_concat]

theorem section_line_not_sentence (ks : Nat) (F : Facility) (p : Nat) :
    ∀ line ∈ lines (report_text ks F p), ∀ G : Facility, line ≠ not_in_system G := by
  intro line h G
  rw [section_lines] at h
  simp only [List.mem_cons, List.mem_singleton, List.not_mem_nil, or_false] at h
  have hG : (not_in_system G).head? = some 'M' ∨ (not_in_system G).head? = some 'S' := by
    cases G <;> simp [not_in_system, Facility.display]
  rcases h with h | h | h
  · subst h; cases F <;> cases G <;> decide
  · have hT : line.head? = some 'T' := by
      subst h
      have : ∃ r, spec_columns F p = Column.type :: r := ⟨_, rfl⟩
      obtain ⟨r, hr⟩ := this
      rw [hr]
      cases r with
      | nil => simp [intercalate_single, Column.cell, padRight, Column.name]
      | cons d r =>
        rw [List.map_cons, List.map_cons, intercalate_cons_cons]
        simp [Column.cell, padRight, Column.name]
    intro e
    rw [e] at hT
    rcases hG with g | g <;> rw [g] at hT <;> simp at hT
  · have hq : line.head? = some F.tag := by subst h; simp
    intro e
    rw [e] at hq
    rcases hG with g | g <;> rw [g] at hq <;> cases F <;> simp [Facility.tag, MSG, SHM, SEM] at hq

theorem lines_body (ks : Nat) (p : Nat) (bq bm bs : Bool) :
    lines ((if bq then report_text ks Facility.msg p else [])
        ++ (if bm then report_text ks Facility.shm p else [])
        ++ (if bs then report_text ks Facility.sem p else []))
      = (if bq then section_lines_of ks Facility.msg p else [])
        ++ (if bm then section_lines_of ks Facility.shm p else [])
        ++ (if bs then section_lines_of ks Facility.sem p else []) := by
  have hnil : lines [] = [] := rfl
  cases bq <;> cases bm <;> cases bs <;>
    simp only [if_true, if_false, Bool.false_eq_true, List.nil_append, List.append_nil,
      List.append_assoc, lines_section_append, section_lines_eq, hnil]

/-- C13: for the flags `q t`, `main` exits with 0 and prints, after the
banner, the message queue section and nothing else: its title, a header line
with exactly the columns T, ID, KEY, MODE, OWNER, GROUP, STIME, RTIME, CTIME in
this order, and the record line. -/
theorem scenario_queues_with_times (ks : Nat) (date : List Char) :
    ∃ s h r,
      main ks date ['q', 't'] = some (0, print_header date ++ s) ∧
      print_report ks MSG TIME (ipcs MSG) = some s ∧
      lines s = ["Message Queues:".toList, h, r] ∧
      columns h
        = ["T".toList, "ID".toList, "KEY".toList, "MODE".toList, "OWNER".toList,
           "GROUP".toList, "STIME".toList, "RTIME".toList, "CTIME".toList] ∧
      r ++ ['\n'] = print_records ks MSG TIME (ipcs MSG) := by
  have hm := main_closed ks date ['q', 't'] (by decide)
  have hp : option_bits 0 ['q', 't'] = TIME := rfl
  have hq : selected ['q', 't'] 'q' = true := by decide
  have hmm : selected ['q', 't'] 'm' = false := by decide
  have hs : selected ['q', 't'] 's' = false := by decide
  rw [hp, hq, hmm, hs] at hm
  simp only [if_true, Bool.false_eq_true, if_false, List.append_nil] at hm
  refine ⟨report_text ks Facility.msg TIME, _, _, hm, report_some ks Facility.msg TIME,
    section_lines ks Facility.msg TIME, ?_, ?_⟩
  · exact columns_cells ks (spec_columns Facility.msg TIME)
  · exact (collector_line ks Facility.msg TIME).symm

/-- C14: for recognised flags, what `main` prints after the banner does not
depend on the clock reading: two runs that differ only in the date text give
the same exit status and the same output apart from the banner. -/
theorem output_after_banner_ignores_clock (ks : Nat) (flags date1 date2 : List Char)
    (hrec : ∀ f ∈ flags, f ∈ recognised) :
    ∃ body,
      main ks date1 flags = some (0, print_header date1 ++ body) ∧
      main ks date2 flags = some (0, print_header date2 ++ body) := by
  refine ⟨(if selected flags 'q' then report_text ks Facility.msg (option_bits 0 flags) else [])
      ++ (if selected flags 'm' then report_text ks Facility.shm (option_bits 0 flags) else [])
      ++ (if selected flags 's' then report_text ks Facility.sem (option_bits 0 flags) else []),
    ?_, ?_⟩
  · rw [main_closed ks date1 flags hrec]; simp only [List.append_assoc]
  · rw [main_closed ks date2 flags hrec]; simp only [List.append_assoc]

/-- C14, instance: the flags `m b` at two different times. -/
theorem output_after_banner_ignores_clock_witness :
    (∀ f ∈ ['m', 'b'], f ∈ recognised) ∧
    ∃ body,
      main 4 "Sun Nov  1 12:00:00 UTC 2026".toList ['m', 'b']
        = some (0, print_header "Sun Nov  1 12:00:00 UTC 2026".toList ++ body) ∧
      main 4 "Mon Nov  2 08:30:00 UTC 2026".toList ['m', 'b']
        = some (0, print_header "Mon Nov  2 08:30:00 UTC 2026".toList ++ body) :=
  ⟨by decide, output_after_banner_ignores_clock 4 ['m', 'b'] _ _ (by decide)⟩

/-- C18: the collector never returns an empty list, so for recognised flags
the output of `main` after the banner is, for each selected facility in turn,
exactly three lines (title, header, one record line), and no line of it is a
`facility not in system.` sentence. -/
theorem main_never_reports_empty_facility (ks : Nat) (date flags : List Char)
    (hrec : ∀ f ∈ flags, f ∈ recognised) :
    (∀ t : Char, ipcs t ≠ []) ∧
    ∃ v body,
      main_loop flags { msgs := 0, shms := 0, sems := 0, print := 0 } = some v ∧
      main ks date flags = some (0, print_header date ++ body) ∧
      (∀ F : Facility, ∃ s, print_report ks F.tag v.print (ipcs F.tag) = some s ∧
        lines s = section_lines_of ks F v.print) ∧
      lines body
        = (if selected flags 'q' then section_lines_of ks Facility.msg v.print else [])
          ++ (if selected flags 'm' then section_lines_of ks Facility.shm v.print else [])
          ++ (if selected flags 's' then section_lines_of ks Facility.sem v.print else []) ∧
      ∀ line ∈ lines body, ∀ G : Facility, line ≠ not_in_system G := by
  refine ⟨fun t => by simp [ipcs], _,
    (if selected flags 'q' then report_text ks Facility.msg (option_bits 0 flags) else [])
      ++ (if selected flags 'm' then report_text ks Facility.shm (option_bits 0 flags) else [])
      ++ (if selected flags 's' then report_text ks Facility.sem (option_bits 0 flags) else []),
    main_loop_closed flags _ hrec, ?_, ?_, ?_, ?_⟩
  · rw [main_closed ks date flags hrec]; simp only [List.append_assoc]
  · intro F
    exact ⟨_, report_some ks F _, section_lines_eq ks F _⟩
  · exact lines_body ks _ _ _ _
  · intro line hline G
    rw [lines_body] at hline
    simp only [List.mem_append] at hline
    rcases hline with (h | h) | h
    · split at h
      · rw [← section_lines_eq] at h
        exact section_line_not_sentence ks _ _ line h G
      · simp at h
    · split at h
      · rw [← section_lines_eq] at h
        exact section_line_not_sentence ks _ _ line h G
      · simp at h
    · split at h
      · rw [← section_lines_eq] at h
        exact section_line_not_sentence ks _ _ line h G
      · simp at h

/-- C18, instance: the flags `a s`. -/
theorem main_never_reports_empty_facility_witness :
    (∀ f ∈ ['a', 's'], f ∈ recognised) ∧
    ∃ body,
      main 4 [] ['a', 's'] = some (0, print_header [] ++ body) ∧
      lines body = section_lines_of 4 Facility.sem 31 := by
  have hrec : ∀ f ∈ ['a', 's'], f ∈ recognised := by decide
  obtain ⟨_, v, body, hv, hm, _, hl, _⟩ :=
    main_never_reports_empty_facility 4 [] ['a', 's'] hrec
  have hp : v.print = 31 := by
    have : some v = some { msgs := 0, shms := 0, sems := 1, print := 31 } := by
      rw [← hv]; rfl
    injection this with e
    rw [e]
  refine ⟨hrec, body, hm, ?_⟩
  rw [hl, hp]
  rfl

/-! ## Helper lemmas: the lines of the records -/

theorem digitChar_ne_newline (d : Nat) : Nat.digitChar d ≠ '\n' := by
  rcases Nat.lt_or_ge d 16 with h | h
  · interval_cases d <;> decide
  · have e : Nat.digitChar d = '*' := by
      unfold Nat.digitChar
      iterate 16 rw [if_neg (by omega)]
    rw [e]
    decide

theorem digitsFuel_no_newline (b : Nat) :
    ∀ (fuel n : Nat), '\n' ∉ digitsFuel b fuel n := by
  intro fuel
  induction fuel with
  | zero => intro n; simp [digitsFuel]
  | succ fuel ih =>
    intro n
    unfold digitsFuel
    split
    · simp only [List.mem_singleton]
      exact fun e => digitChar_ne_newline n e.symm
    · simp only [List.mem_append, List.mem_singleton, not_or]
      exact ⟨ih _, fun e => digitChar_ne_newline _ e.symm⟩

theorem fmt_d_no_newline (v : Int) : '\n' ∉ fmt_d v := by
  unfold fmt_d numeral
  split
  · simp only [List.mem_cons, not_or]
    exact ⟨by decide, digitsFuel_no_newline _ _ _⟩
  · exact digitsFuel_no_newline _ _ _

theorem padRight_no_newline (w : Nat) (s : List Char) (h : '\n' ∉ s) :
    '\n' ∉ padRight w s := by
  simp [padRight, List.mem_replicate, h]

theorem record_no_newline (ks : Nat) (e : ipc) (ht : e.type ≠ '\n')
    (hm : '\n' ∉ cstr e.mode) :
    '\n' ∉ [' '].intercalate (record_fields ks e) := by
  have h1 : '\n' ∉ padRight TYPE_WIDTH [e.type] :=
    padRight_no_newline _ _ (by simp only [List.mem_singleton]; exact fun e' => ht e'.symm)
  have h2 : '\n' ∉ padRight ID_WIDTH (fmt_d e.id) := padRight_no_newline _ _ (fmt_d_no_newline _)
  have h3 : '\n' ∉ padZero (KEY_WIDTH ks - 2) (fmt_x e.key) := by
    simp only [padZero, List.mem_append, List.mem_replicate, not_or]
    exact ⟨fun h => absurd h.2 (by decide), digitsFuel_no_newline _ _ _⟩
  have h4 : '\n' ∉ padRight MODE_WIDTH (cstr e.mode) :=
    padRight_no_newline _ _ hm
  have h5 : '\n' ∉ padRight OWNER_WIDTH (fmt_d (as_int e.owner)) :=
    padRight_no_newline _ _ (fmt_d_no_newline _)
  have h6 : '\n' ∉ padRight GROUP_WIDTH (fmt_d (as_int e.group)) :=
    padRight_no_newline _ _ (fmt_d_no_newline _)
  simp [record_fields, List.intercalate, List.intersperse, h1, h2, h3, h4, h5, h6]

theorem lines_print_records (ks : Nat) (t : Char) (o : Nat) (l : List ipc)
    (h : ∀ e ∈ l, e.type ≠ '\n' ∧ '\n' ∉ cstr e.mode) :
    lines (print_records ks t o l) = l.map (fun e => (print_record ks t o e).dropLast) := by
  induction l with
  | nil => rfl
  | cons e rest ih =>
    have he := h e (by simp)
    have hr : ∀ e ∈ rest, e.type ≠ '\n' ∧ '\n' ∉ cstr e.mode :=
      fun x hx => h x (by simp [hx])
    have hdrop : (print_record ks t o e).dropLast = [' '].intercalate (record_fields ks e) := by
      rw [print_record_eq_fields, List.dropLast_concat]
    have e1 : print_records ks t o (e :: rest)
        = [' '].intercalate (record_fields ks e) ++ '\n' :: print_records ks t o rest := by
      show print_record ks t o e ++ print_records ks t o rest = _
      rw [print_record_eq_fields]
      simp
    rw [e1, List.map_cons, hdrop]
    unfold lines at ih ⊢
    rw [linesAux_append_newline _ _ _ (record_no_newline ks e he.1 he.2), List.nil_append,
      ih hr]

/-- C15, as stated, fails: a single record whose eleven-character mode holds
a newline (`rw`, newline, eight `-`) makes `print_report` emit four lines, not
the three of `n + 2`. -/
theorem newline_in_mode_adds_a_line :
    (record_with_mode "rw\n--------".toList).mode.length = 11 ∧
    [record_with_mode "rw\n--------".toList].length + 2 = 3 ∧
    ∃ out, print_report 4 MSG 0 [record_with_mode "rw\n--------".toList] = some out ∧
      (lines out).length = 4 :=
  ⟨by decide, by decide, _, rfl, by decide⟩

/-- C15, amended: for every facility, option bitset and non-empty list of `n`
records none of which prints a newline inside its line (its type character is
not a newline and its mode text, the bytes of `mode` up to the first NUL,
holds none), `print_report` emits exactly `n + 2` lines: the title
`<FacilityName>:`, the header line, then one line per record in the order of
the list, the `k`-th being the rendering of the `k`-th record. -/
theorem report_line_per_record (ks : Nat) (F : Facility) (o : Nat) (l : List ipc)
    (hl : l ≠ []) (hnl : ∀ e ∈ l, e.type ≠ '\n' ∧ '\n' ∉ cstr e.mode) :
    ∃ out, print_report ks F.tag o l = some out ∧
      lines out
        = (F.display ++ [':']) :: (print_report_header ks F.tag o).dropLast
            :: l.map (fun e => (print_record ks F.tag o e).dropLast) ∧
      (lines out).length = l.length + 2 ∧
      header_line out ++ ['\n'] = print_report_header ks F.tag o ∧
      ∀ (k : Nat) (hk : k < l.length),
        record_line out k ++ ['\n'] = print_record ks F.tag o (l.get ⟨k, hk⟩) := by
  obtain ⟨h1, h2⟩ := report_lines ks F o l hl
  have hd : (print_report_header ks F.tag o).dropLast
      = [' '].intercalate ((spec_columns F o).map (Column.cell ks)) := by
    rw [header_eq_cells, List.dropLast_concat]
  have hlines := h2
  rw [lines_print_records ks F.tag o l hnl, ← hd] at hlines
  refine ⟨_, h1, hlines, ?_, ?_, ?_⟩
  · rw [hlines]; simp
  · unfold header_line
    rw [h2, header_eq_cells]
    rfl
  · intro k hk
    unfold record_line
    rw [hlines]
    have hk2 : k < (l.map (fun e => (print_record ks F.tag o e).dropLast)).length := by
      simpa using hk
    simp only [List.getD_cons_succ]
    rw [List.getD_eq_getElem _ _ hk2, List.getElem_map, print_record_eq_fields,
      List.dropLast_concat]
    exact (print_record_eq_fields ks F.tag o (l.get ⟨k, hk⟩)).symm

/-- C15 amended, instance: a list of two records. -/
theorem report_line_per_record_witness :
    [record_with_key 1, record_with_key 2] ≠ [] ∧
    (∀ e ∈ [record_with_key 1, record_with_key 2], e.type ≠ '\n' ∧ '\n' ∉ cstr e.mode) ∧
    ∃ out, print_report 4 MSG 0 [record_with_key 1, record_with_key 2] = some out ∧
      (lines out).length = 2 + 2 := by
  have hnl : ∀ e ∈ [record_with_key 1, record_with_key 2],
      e.type ≠ '\n' ∧ '\n' ∉ cstr e.mode := by
    decide
  obtain ⟨out, h1, _, h3, _⟩ :=
    report_line_per_record 4 Facility.msg 0 [record_with_key 1, record_with_key 2]
      (by decide) hnl
  exact ⟨by decide, hnl, out, h1, h3⟩

/-- C16: for every type tag `t` the collector returns exactly one record, of
type `t`, with every numeric field zero and a mode of eleven `-`; with a
four-byte key type its line is `t`, then ` 0` padded to width 10, ` 0x000000`,
a space and eleven `-`, ` 0` padded to width 8 twice, and a newline, whatever
the option bitset; the Mode field is exactly eleven characters.  For any key
size the same holds with `2*ks - 2` zeros after `0x` (at least one). -/
theorem collector_record_and_line (t : Char) (o : Nat) :
    ∃ r, ipcs t = [r] ∧
      r.type = t ∧ r.id = 0 ∧ r.key = 0 ∧ r.owner = 0 ∧ r.group = 0 ∧
      r.creator = 0 ∧ r.cgroup = 0 ∧ r.cbytes = 0 ∧ r.qnum = 0 ∧ r.natcch = 0 ∧
      r.qbytes = 0 ∧ r.segsz = 0 ∧ r.nsems = 0 ∧ r.lspid = 0 ∧ r.lrpid = 0 ∧
      r.cpid = 0 ∧ r.lpid = 0 ∧ r.stime = 0 ∧ r.rtime = 0 ∧ r.atime = 0 ∧ r.dtime = 0 ∧
      r.otime = 0 ∧ r.ctime = 0 ∧
      r.mode = List.replicate 11 '-' ∧
      print_record 4 t o r
        = t :: " 0          0x000000 ----------- 0        0       \n".toList ∧
      (record_fields 4 r).getD 3 [] = "-----------".toList ∧
      ((record_fields 4 r).getD 3 []).length = 11 ∧
      ∀ ks : Nat, print_record ks t o r
        = t :: " 0          0x".toList ++ List.replicate (KEY_WIDTH ks - 2 - 1) '0'
            ++ "0 ----------- 0        0       \n".toList := by
  refine ⟨_, rfl, rfl, rfl, rfl, rfl, rfl, rfl, rfl, rfl, rfl, rfl, rfl, rfl, rfl, rfl, rfl,
    rfl, rfl, rfl, rfl, rfl, rfl, rfl, rfl, rfl, rfl, rfl, rfl, ?_⟩
  intro ks
  have hx : fmt_x 0 = ['0'] := by decide
  have hd : fmt_d (as_int 0) = ['0'] := by decide
  have hd0 : fmt_d 0 = ['0'] := by decide
  have hm : cstr (List.replicate 11 '-') = List.replicate 11 '-' := by decide
  simp only [print_record, printf_c, printf_d, printf_0x, printf_s,
    print_user, print_group, hx, hd, hd0, hm, padRight, padZero, TYPE_WIDTH, ID_WIDTH,
    MODE_WIDTH, OWNER_WIDTH, GROUP_WIDTH]
  simp [List.replicate]

/-- C17, the code at failing inputs: the owner 4294967295, within the range of
a 32-bit `uid_t`, is printed as `-1` and not as its own numeral `4294967295`;
the group 2147483648 is printed as `-2147483648`. -/
theorem owner_above_int_max_is_negative :
    (record_with_owner 4294967295).owner < 2 ^ 32 ∧
    print_record 4 MSG 0 (record_with_owner 4294967295)
      = "q 0          0x000000 ----------- -1       0       \n".toList ∧
    numeral 10 4294967295 = "4294967295".toList ∧
    print_group GROUP_WIDTH 2147483648 = " -2147483648".toList := by
  refine ⟨by decide, by decide, by decide, by decide⟩

/-- C10: for recognised flags containing `a`, wherever it stands, the option
bitset the loop leaves is exactly
`BYTES | CREATOR | OUTSTANDING | PROCESS | TIME`, and this is the bitset `main`
hands to `print_report`: the output of `main` is the banner followed, for
each selected facility in turn, by the report `print_report` gives for that
bitset on the collector's list, whose header shows every column of the
facility; the result is the one of the same list with every `a` replaced by
`b c o p t`. -/
theorem all_flag_sets_every_option (ks : Nat) (date flags : List Char)
    (hrec : ∀ f ∈ flags, f ∈ recognised) (ha : 'a' ∈ flags) :
    ∃ v s1 s2 s3,
      main_loop flags { msgs := 0, shms := 0, sems := 0, print := 0 } = some v ∧
      v.print = BYTES ||| CREATOR ||| OUTSTANDING ||| PROCESS ||| TIME ∧
      print_report ks MSG (BYTES ||| CREATOR ||| OUTSTANDING ||| PROCESS ||| TIME) (ipcs MSG)
        = some s1 ∧
      print_report ks SHM (BYTES ||| CREATOR ||| OUTSTANDING ||| PROCESS ||| TIME) (ipcs SHM)
        = some s2 ∧
      print_report ks SEM (BYTES ||| CREATOR ||| OUTSTANDING ||| PROCESS ||| TIME) (ipcs SEM)
        = some s3 ∧
      columns (header_line s1) = full_header Facility.msg ∧
      columns (header_line s2) = full_header Facility.shm ∧
      columns (header_line s3) = full_header Facility.sem ∧
      main ks date flags
        = some (0, print_header date
            ++ (if selected flags 'q' then s1 else [])
            ++ (if selected flags 'm' then s2 else [])
            ++ (if selected flags 's' then s3 else [])) ∧
      main ks date flags = main ks date (replace_a flags) := by
  have h31 : option_bits 0 flags = BYTES ||| CREATOR ||| OUTSTANDING ||| PROCESS ||| TIME :=
    option_bits_of_a flags 0 ha
  have hcols : ∀ F : Facility,
      columns (header_line
          (report_text ks F (BYTES ||| CREATOR ||| OUTSTANDING ||| PROCESS ||| TIME)))
        = full_header F := by
    intro F
    obtain ⟨out, ho, hc⟩ := report_header_columns ks F
      (BYTES ||| CREATOR ||| OUTSTANDING ||| PROCESS ||| TIME) (ipcs F.tag) (by simp [ipcs])
    rw [report_some] at ho
    injection ho with e
    rw [e, hc, spec_columns_full]
  have hmain := main_closed ks date flags hrec
  rw [h31] at hmain
  refine ⟨_, _, _, _, main_loop_closed flags _ hrec, h31,
    report_some ks Facility.msg _, report_some ks Facility.shm _,
    report_some ks Facility.sem _, hcols _, hcols _, hcols _, hmain, ?_⟩
  rw [main_closed ks date flags hrec,
    main_closed ks date (replace_a flags) (recognised_replace_a flags hrec),
    option_bits_replace_a flags 0 (by decide),
    selected_replace_a flags 'q' (Or.inl rfl),
    selected_replace_a flags 'm' (Or.inr (Or.inl rfl)),
    selected_replace_a flags 's' (Or.inr (Or.inr rfl))]

/-- C10, instance: the flags `b a q` print the banner and the message queue
report for all five options. -/
theorem all_flag_sets_every_option_witness :
    (∀ f ∈ ['b', 'a', 'q'], f ∈ recognised) ∧ 'a' ∈ ['b', 'a', 'q'] ∧
    ∃ v s1,
      main_loop ['b', 'a', 'q'] { msgs := 0, shms := 0, sems := 0, print := 0 } = some v ∧
      v.print = BYTES ||| CREATOR ||| OUTSTANDING ||| PROCESS ||| TIME ∧
      print_report 4 MSG (BYTES ||| CREATOR ||| OUTSTANDING ||| PROCESS ||| TIME) (ipcs MSG)
        = some s1 ∧
      columns (header_line s1) = full_header Facility.msg ∧
      main 4 [] ['b', 'a', 'q'] = some (0, print_header [] ++ s1) ∧
      main 4 [] ['b', 'a', 'q'] = main 4 [] (replace_a ['b', 'a', 'q']) := by
  obtain ⟨v, s1, s2, s3, hv, hp, h1, _, _, c1, _, _, hm, hr⟩ :=
    all_flag_sets_every_option 4 [] ['b', 'a', 'q'] (by decide) (by decide)
  refine ⟨by decide, by decide, v, s1, hv, hp, h1, c1, ?_, hr⟩
  rw [hm]
  have hq : selected ['b', 'a', 'q'] 'q' = true := by decide
  have hmm : selected ['b', 'a', 'q'] 'm' = false := by decide
  have hs : selected ['b', 'a', 'q'] 's' = false := by decide
  rw [hq, hmm, hs]
  simp

end Ipcs
